import Mathlib

/-!
A verification development for the News-Weather-App repository.

We shallowly embed the pure core of `scripts/daily_brief.py` and
`scripts/up_ahead.py`: the 3-tier section summarizer, the batch title
translator, the fallback event-document generator, and the event-document
merge.  External effects (the Gemini API, the sumy LexRank library) are
modelled as explicit oracle parameters: the Gemini call is an
`Except String String` (an exception message or the response text) and the
LexRank summarizer is a function `String → Option String`.  Python dicts
with a fixed key set become structures; optional keys become `Option`
fields; Python string operations (`strip`, `lower`, `split`, substring
tests, `int()` parsing) are re-implemented below on `List Char` with plain
structural recursion so that every definition evaluates by `decide`/`rfl`.
-/

/-- Python `str.strip` whitespace set (space, tab, newline, CR, VT, FF). -/
def isPyWS (c : Char) : Bool :=
  c = ' ' || c = '\t' || c = '\n' || c = '\r' || c = '\x0b' || c = '\x0c'

/-- Python `str.strip()`: drop leading and trailing whitespace. -/
def pyStrip (s : String) : String :=
  ⟨((s.data.dropWhile isPyWS).reverse.dropWhile isPyWS).reverse⟩

/-- Python `str.lower()` (ASCII range; the inputs in the claims are ASCII). -/
def strLower (s : String) : String :=
  ⟨s.data.map Char.toLower⟩

/-- Substring test on char lists (Python `needle in hay`). -/
def listContainsSub (needle : List Char) : List Char → Bool
  | [] => needle.isPrefixOf []
  | c :: t => needle.isPrefixOf (c :: t) || listContainsSub needle t

/-- Python `needle in hay` for strings. -/
def strContains (hay needle : String) : Bool :=
  listContainsSub needle.data hay.data

/-- Membership of a string in a list of strings (Python `x in set`). -/
def strMem (s : String) : List String → Bool
  | [] => false
  | x :: t => if x = s then true else strMem s t

/-- Python `sep.join(parts)`. -/
def joinSep (sep : String) : List String → String
  | [] => ""
  | [x] => x
  | x :: y :: t => x ++ sep ++ joinSep sep (y :: t)

/-- Split a char list on a single separator character (Python `s.split(c)`). -/
def splitCharGo (sep : Char) (cur : List Char) : List Char → List (List Char)
  | [] => [cur.reverse]
  | c :: t =>
    if c = sep then cur.reverse :: splitCharGo sep [] t
    else splitCharGo sep (c :: cur) t

/-- Python `s.split(c)` yielding strings. -/
def splitChar (sep : Char) (s : String) : List String :=
  (splitCharGo sep [] s.data).map (fun l => (⟨l⟩ : String))

/-- Python `s.split("|||")` (used by the bilingual summary path). -/
def splitBars (cur : List Char) : List Char → List (List Char)
  | '|' :: '|' :: '|' :: t => cur.reverse :: splitBars [] t
  | c :: t => splitBars (c :: cur) t
  | [] => [cur.reverse]

/-- `s.split("|||")` yielding strings. -/
def splitBarsStr (s : String) : List String :=
  (splitBars [] s.data).map (fun l => (⟨l⟩ : String))

/-- Python `line.split('.', 1)`: split at the first `'.'` only.
`none` when the separator is absent (`len(parts) == 1` in the source). -/
def splitOnceDot : List Char → Option (List Char × List Char)
  | [] => none
  | c :: t =>
    if c = '.' then some ([], t)
    else match splitOnceDot t with
      | some (a, b) => some (c :: a, b)
      | none => none

/-- Python `s.rsplit(" (", 1)`: split at the rightmost `" ("` occurrence.
`none` when the separator is absent. -/
def lastSplitParen : List Char → Option (List Char × List Char)
  | [] => none
  | c :: t =>
    match lastSplitParen t with
    | some (a, b) => some (c :: a, b)
    | none =>
      match c, t with
      | ' ', '(' :: r => some ([], r)
      | _, _ => none

/-- Decimal value accumulator for digit strings. -/
def listToNat (acc : Nat) : List Char → Nat
  | [] => acc
  | c :: t => listToNat (acc * 10 + (c.toNat - 48)) t

/-- All-digits, nonempty decimal parse (used by the date parser). -/
def strToNat (s : String) : Option Nat :=
  if s.data ≠ [] ∧ s.data.all (·.isDigit) then some (listToNat 0 s.data) else none

/-- Python `int(s)`: surrounding whitespace stripped, optional sign, digits.
(Python additionally accepts underscore digit grouping, not modelled; the
claims do not involve such inputs.) -/
def pyIntParse (s : String) : Option Int :=
  match (pyStrip s).data with
  | '+' :: rest =>
    if rest ≠ [] ∧ rest.all (·.isDigit) then some (Int.ofNat (listToNat 0 rest)) else none
  | '-' :: rest =>
    if rest ≠ [] ∧ rest.all (·.isDigit) then some (-(Int.ofNat (listToNat 0 rest))) else none
  | l =>
    if l ≠ [] ∧ l.all (·.isDigit) then some (Int.ofNat (listToNat 0 l)) else none

/-! ## Dates (`datetime.strptime(s, "%Y-%m-%d").date()` and date comparison) -/

/-- A parsed calendar date. -/
structure PDate where
  year : Nat
  month : Nat
  day : Nat
deriving DecidableEq, Repr

/-- Gregorian leap-year rule (as used by `datetime`). -/
def isLeap (y : Nat) : Bool :=
  y % 4 == 0 && (y % 100 != 0 || y % 400 == 0)

/-- Days in a month, with the February leap rule. -/
def daysInMonth (y m : Nat) : Nat :=
  if m == 2 then (if isLeap y then 29 else 28)
  else if m == 4 || m == 6 || m == 9 || m == 11 then 30
  else 31

/-- `datetime.strptime(s, "%Y-%m-%d")`: three dash-separated decimal fields
(`%Y` at most 4 digits, `%m`/`%d` at most 2), range-checked including the
day-of-month bound; `none` models the `ValueError`. -/
def parseDate (s : String) : Option PDate :=
  match splitChar '-' s with
  | [ys, ms, ds] =>
    if ys.data.length ≤ 4 ∧ ms.data.length ≤ 2 ∧ ds.data.length ≤ 2 then
      match strToNat ys, strToNat ms, strToNat ds with
      | some y, some m, some d =>
        if 1 ≤ y ∧ 1 ≤ m ∧ m ≤ 12 ∧ 1 ≤ d ∧ d ≤ daysInMonth y m then
          some ⟨y, m, d⟩
        else none
      | _, _, _ => none
    else none
  | _ => none

/-- `date` order: `dateLe a b` is Python `a <= b`. -/
def dateLe (a b : PDate) : Bool :=
  if a.year < b.year then true
  else if b.year < a.year then false
  else if a.month < b.month then true
  else if b.month < a.month then false
  else decide (a.day ≤ b.day)

/-! ## The event-document data model of `up_ahead.py`

A timeline item / section item is a dict; the merge logic reads only its
`"title"` key (possibly absent), so an item is a `title : Option String`
together with an opaque `payload` standing for all other keys.  A timeline
day-bucket has a required `"date"`, a `"dayLabel"` and its items (the code
reads `day.get("items", [])`; a missing items key is modelled as `[]`).
A document has the three top-level keys, each `Option`al (`"timeline" in d`
tests presence, `d.get("sections", {})` defaults).  `weekly_plan` is a
day-to-text dict. -/

structure Item where
  title : Option String
  payload : String
deriving DecidableEq, Repr

structure Day where
  date : String
  dayLabel : String
  items : List Item
deriving DecidableEq, Repr

structure Doc where
  timeline : Option (List Day)
  sections : Option (List (String × List Item))
  weekly_plan : Option (List (String × String))
deriving DecidableEq, Repr

/-- Python `not existing` is also true for the empty dict. -/
def docTruthy (d : Doc) : Bool :=
  d.timeline.isSome || d.sections.isSome || d.weekly_plan.isSome

/-! The `timeline_map` Python dict is modelled as an insertion-ordered
association list; dict assignment replaces the value in place when the key
is present and otherwise appends.  Keys are unique in every reachable map
(Python dict keys always are). -/

def alLookup (mp : List (String × Day)) (k : String) : Option Day :=
  match mp with
  | [] => none
  | (k2, v) :: t => if k2 = k then some v else alLookup t k

def alInsert (mp : List (String × Day)) (k : String) (v : Day) : List (String × Day) :=
  if (alLookup mp k).isSome then
    mp.map (fun e => if e.1 = k then (k, v) else e)
  else mp ++ [(k, v)]

/-- One step of the existing-timeline pass of `merge_data`: parse the
bucket's date, keep it only when it is today or later, skip it on a
`ValueError`. -/
def seedStep (today : PDate) (mp : List (String × Day)) (day : Day) : List (String × Day) :=
  match parseDate day.date with
  | some d => if dateLe today d then alInsert mp day.date day else mp
  | none => mp

def seedMap (today : PDate) (tl : List Day) : List (String × Day) :=
  tl.foldl (seedStep today) []

/-- Same-day item merge of `merge_data`: the set of lower-cased existing
titles is computed once, then each incoming item is appended when its
lower-cased title is not in that set (note: no `strip`, unlike the
sections pass). -/
def mergeDay (exDay newDay : Day) : Day :=
  let exTitles := exDay.items.map (fun i => strLower (i.title.getD ""))
  { exDay with
    items := exDay.items ++
      newDay.items.filter (fun i => !(strMem (strLower (i.title.getD "")) exTitles)) }

/-- One step of the new-timeline pass of `merge_data`: unseen dates are
added wholesale (no date validation on this side), seen dates get an item
merge. -/
def addStep (mp : List (String × Day)) (day : Day) : List (String × Day) :=
  match alLookup mp day.date with
  | none => mp ++ [(day.date, day)]
  | some exDay => alInsert mp day.date (mergeDay exDay day)

def addNew (mp : List (String × Day)) (tl : List Day) : List (String × Day) :=
  tl.foldl addStep mp

/-- Python string comparison (code-point lexicographic), for the final
`sorted(..., key=lambda x: x["date"])`. -/
def charListLt : List Char → List Char → Bool
  | [], [] => false
  | [], _ :: _ => true
  | _ :: _, [] => false
  | a :: as, b :: bs =>
    if a.toNat < b.toNat then true
    else if b.toNat < a.toNat then false
    else charListLt as bs

def strLt (a b : String) : Bool := charListLt a.data b.data

/-- Insertion into a date-sorted bucket list (the map's keys are unique, so
stability of `sorted` is irrelevant). -/
def insertByDate (d : Day) : List Day → List Day
  | [] => [d]
  | e :: t => if strLt d.date e.date then d :: e :: t else e :: insertByDate d t

def sortByDate : List Day → List Day
  | [] => []
  | d :: t => insertByDate d (sortByDate t)

/-- The dedup key of the sections pass: lower-cased **trimmed** title. -/
def secKey (i : Item) : String := strLower (pyStrip (i.title.getD ""))

/-- The per-section accumulation loop of `merge_data`: an item is kept when
its trimmed lower-cased title is non-empty and unseen; the seen-set and
output thread through both the existing and the new list. -/
def addItems : List String → List Item → List Item → (List String × List Item)
  | seen, acc, [] => (seen, acc)
  | seen, acc, i :: t =>
    let ti := secKey i
    if ti ≠ "" ∧ strMem ti seen = false then addItems (ti :: seen) (acc ++ [i]) t
    else addItems seen acc t

def mergeSectionLists (e n : List Item) : List Item :=
  let p := addItems [] [] e
  (addItems p.1 p.2 n).2

/-- First-appearance key dedup (`all_keys` is a Python set; its iteration
order is unspecified, modelled canonically as first appearance,
existing keys first). -/
def dedupKeysGo (seen : List String) : List String → List String
  | [] => []
  | k :: t => if strMem k seen then dedupKeysGo seen t else k :: dedupKeysGo (k :: seen) t

def dedupKeys (l : List String) : List String := dedupKeysGo [] l

def secLookup (s : List (String × List Item)) (k : String) : List Item :=
  match s with
  | [] => []
  | (k2, v) :: t => if k2 = k then v else secLookup t k

def mergeSections (es ns : List (String × List Item)) : List (String × List Item) :=
  (dedupKeys (es.map Prod.fst ++ ns.map Prod.fst)).map
    (fun k => (k, mergeSectionLists (secLookup es k) (secLookup ns k)))

/-- `merge_data(existing, new_data)` of `up_ahead.py`, with `today`
explicit.  `existing` is `Option`al (`load_existing_data` may return
`None`); a falsy existing document returns `new_data` unchanged. -/
def merge_data (today : PDate) (existing : Option Doc) (new_data : Doc) : Doc :=
  match existing with
  | none => new_data
  | some ex =>
    if !docTruthy ex then new_data
    else
      let m1 := match ex.timeline with
        | some tl => seedMap today tl
        | none => []
      let m2 := match new_data.timeline with
        | some tl => addNew m1 tl
        | none => m1
      { timeline := some (sortByDate (m2.map Prod.snd)),
        sections := some (mergeSections (ex.sections.getD []) (new_data.sections.getD [])),
        weekly_plan := some (new_data.weekly_plan.getD (ex.weekly_plan.getD [])) }

/-! ## `daily_brief.py`: articles and the 3-tier summarizer

An article dict has a required `"title"`, a `"link"`, an optional `"body"`
(read via `a.get('body', '')`; absent is modelled as `""`, which is how the
code itself treats it) and an optional `"title_en"` added by the
translator. -/

structure Article where
  title : String
  link : String
  body : String
  title_en : Option String
deriving DecidableEq, Repr

/-- The dict returned by the summarization tiers: each key optional,
`'summary' in result` becomes `summary.isSome`. -/
structure SummResult where
  summary : Option String
  summary_ta : Option String
  method : Option String
  error : Option String
deriving DecidableEq, Repr

/-- Tier 3, `summarize_headline_bullets`: bullet lines from the stripped
non-empty titles of the first 10 articles. -/
def summarize_headline_bullets (arts : List Article) : Option String :=
  if arts = [] then none
  else
    let lines := (arts.take 10).filterMap (fun a =>
      let t := pyStrip a.title
      if t ≠ "" then some ("• " ++ t) else none)
    if lines = [] then none else some (joinSep "\n" lines)

/-- Tier 2, `summarize_extractive_sumy`: the guard from the source
(`not HAS_SUMY or not text or len(text) < 100`); the LexRank call itself is
an external library, modelled by the `oracle` (which also returns `none`
for an in-library exception); `sentence_count` is fixed by the caller and
absorbed into the oracle. -/
def summarize_extractive_sumy (hasSumy : Bool) (oracle : String → Option String)
    (text : String) : Option String :=
  if ¬hasSumy ∨ text = "" ∨ text.length < 100 then none
  else oracle text

/-- The bilingual source whitelist of `_summarize_gemini`. -/
def tamilSources : List String := ["DINAMANI", "DAILY_THANTHI"]

/-- Tier 1, `_summarize_gemini`.  `gem` is the outcome of
`model.generate_content(prompt).text`: `Except.error e` models a raised
exception with message `e`.  The prompt is built from `sourceName`,
`sectionName` and the first 15 titles but influences the result only
through the oracle, so it is not materialised. -/
def summarize_gemini (gem : Except String String) (sourceName sectionName : String)
    (arts : List Article) : Option SummResult :=
  let is_tamil := strMem sourceName tamilSources
  match gem with
  | .ok raw =>
    let text := pyStrip raw
    if is_tamil = true ∧ strContains text "|||" = true then
      let parts := splitBarsStr text
      some ⟨some (pyStrip (parts.getD 0 "")), some (pyStrip (parts.getD 1 "")), none, none⟩
    else some ⟨some text, none, none, none⟩
  | .error e =>
    if strContains e "429" then some ⟨none, none, none, some "Quota Exceeded"⟩
    else if strContains e "403" then some ⟨none, none, none, some "Invalid API Key"⟩
    else none

/-- `[a.get('body', '') for a in articles if a.get('body')]`. -/
def bodyTexts (arts : List Article) : List String :=
  (arts.filter (fun a => a.body ≠ "")).map (fun a => a.body)

/-- `"\n\n".join(body_texts[:5])`. -/
def combinedBody (arts : List Article) : String :=
  joinSep "\n\n" ((bodyTexts arts).take 5)

/-- Lines 122-125 of `daily_brief.py`: the Gemini tier result is used only
when a model is configured and the result dict has a `summary` key — an
error dict from Tier 1 falls through exactly like `None`. -/
def tier1 (modelPresent : Bool) (gem : Except String String)
    (sourceName sectionName : String) (arts : List Article) : Option SummResult :=
  if modelPresent then
    match summarize_gemini gem sourceName sectionName arts with
    | some r => if r.summary.isSome then some r else none
    | none => none
  else none

/-- Lines 128-134: the extractive tier, taken only when some body text
exists, the blank-line-joined concatenation of the first 5 bodies is
strictly longer than 200 characters, and the sumy result is truthy. -/
def tier2 (hasSumy : Bool) (oracle : String → Option String)
    (arts : List Article) : Option SummResult :=
  if bodyTexts arts ≠ [] then
    if (combinedBody arts).length > 200 then
      match summarize_extractive_sumy hasSumy oracle (combinedBody arts) with
      | some s => if s ≠ "" then some ⟨some s, none, some "extractive", none⟩ else none
      | none => none
    else none
  else none

/-- Lines 136-141: the headlines tier, and the final error dict when even
it produced nothing. -/
def tier3 (arts : List Article) : SummResult :=
  match summarize_headline_bullets arts with
  | some b => ⟨some b, none, some "headlines", none⟩
  | none => ⟨none, none, none, some "No summary generated"⟩

/-- `summarize_section`: the 3-tier cascade. -/
def summarize_section (modelPresent : Bool) (gem : Except String String)
    (hasSumy : Bool) (oracle : String → Option String)
    (sourceName sectionName : String) (arts : List Article) : SummResult :=
  if arts = [] then ⟨none, none, none, some "No articles to summarize"⟩
  else
    match tier1 modelPresent gem sourceName sectionName arts with
    | some r => r
    | none =>
      match tier2 hasSumy oracle arts with
      | some r => r
      | none => tier3 arts

/-! ## `translate_titles_batch` -/

/-- Set `title_en` on the article at a given position (Python
`articles[idx]['title_en'] = ...`). -/
def setTitleEn (t : String) : Nat → List Article → List Article
  | _, [] => []
  | 0, a :: rest => { a with title_en := some t } :: rest
  | n + 1, a :: rest => a :: setTitleEn t n rest

/-- Process one response line: split at the first `'.'`, parse the
1-indexed number, bounds-check, and attribute the translation by that
index; any failure leaves the list untouched (`continue`). -/
def applyLine (arts : List Article) (line : String) : List Article :=
  match splitOnceDot line.data with
  | none => arts
  | some (p0, p1) =>
    match pyIntParse ⟨p0⟩ with
    | none => arts
    | some k =>
      let idx : Int := k - 1
      if 0 ≤ idx ∧ idx < (arts.length : Int) then
        setTitleEn (pyStrip ⟨p1⟩) idx.toNat arts
      else arts

/-- `translate_titles_batch`: a no-op without a model or articles, or on a
raised transport error; otherwise folds `applyLine` over the lines of the
stripped response text. -/
def translate_titles_batch (modelPresent : Bool) (resp : Except String String)
    (arts : List Article) : List Article :=
  if ¬modelPresent ∨ arts = [] then arts
  else
    match resp with
    | .error _ => arts
    | .ok text => (splitChar '\n' (pyStrip text)).foldl applyLine arts

/-! ## `generate_fallback_data` of `up_ahead.py` -/

/-- A fallback item (`id`, `type`, `title`, `subtitle`, `description`,
`link`, `tags`). -/
structure FItem where
  id : String
  type : String
  title : String
  subtitle : String
  description : String
  link : String
  tags : List String
deriving DecidableEq, Repr

structure FDay where
  date : String
  dayLabel : String
  items : List FItem
deriving DecidableEq, Repr

/-- `{"title": ..., "text": ..., "link": ...}` of the movies/festivals
sections. -/
structure SecEntry where
  title : String
  text : String
  link : String
deriving DecidableEq, Repr

/-- `{"text": ..., "severity": ...}` of the alerts section. -/
structure AlertEntry where
  text : String
  severity : String
deriving DecidableEq, Repr

/-- The fallback document (`timeline`/`sections`/`weekly_plan` with its
fixed note). -/
structure FDoc where
  timeline : List FDay
  movies : List SecEntry
  festivals : List SecEntry
  alerts : List AlertEntry
  weekly_note : String
deriving DecidableEq, Repr

/-- The keyword classifier of `generate_fallback_data` (runs on the
lower-cased title, first match wins). -/
def classifyTitle (lower : String) : String :=
  if strContains lower "movie" || strContains lower "review" || strContains lower "release" then "movie"
  else if strContains lower "festival" || strContains lower "holiday" then "festival"
  else if strContains lower "cricket" || strContains lower "match" then "sport"
  else if strContains lower "rain" || strContains lower "alert" then "alert"
  else "event"

/-- The noise-keyword denylist, verbatim from the source. -/
def noise_words : List String :=
  ["review", "gossip", "rumour", "spotted", "dating", "box office",
   "collection", "shocking", "viral", "video", "photo", "leaked",
   "renamed", "locks release date", "casts", "producer", "court",
   "petition", "arrested", "stealing", "sewage", "warns", "talks",
   "deal", "financial results", "board meeting", "fog", "mist"]

def isNoisy (lower : String) : Bool :=
  noise_words.any (fun w => strContains lower w)

/-- Parse one RSS line `"- Title (Link)"` into an item; classification by
keyword happens first, then the denylist gates inclusion.  `hashF` models
Python's `abs(hash(title))` (hash randomisation makes it opaque). -/
def parseFallbackLine (hashF : String → Nat) (line : String) : Option FItem :=
  match line.data with
  | '-' :: ' ' :: rest =>
    let pr := match lastSplitParen rest with
      | some (a, b) => ((⟨a⟩ : String), (⟨b.dropLast⟩ : String))
      | none => ((⟨rest⟩ : String), "")
    let title := pr.1
    let lower := strLower title
    let cat := classifyTitle lower
    if isNoisy lower then none
    else some ⟨toString (hashF title), cat, title, "From RSS", "Latest update", pr.2, [cat]⟩
  | _ => none

/-- `generate_fallback_data`: parse every `"- "` line, classify, drop noise,
then build the single-bucket timeline (top 20 items) and the per-type
sections. -/
def generate_fallback_data (hashF : String → Nat) (todayStr : String)
    (headlines_text : String) : FDoc :=
  let items := (splitChar '\n' headlines_text).filterMap (parseFallbackLine hashF)
  { timeline := [⟨todayStr, "Latest Updates", items.take 20⟩],
    movies := (items.filter (fun i => decide (i.type = "movie"))).map
      (fun i => ⟨i.title, i.title, i.link⟩),
    festivals := (items.filter (fun i => decide (i.type = "festival"))).map
      (fun i => ⟨i.title, i.title, i.link⟩),
    alerts := (items.filter (fun i => decide (i.type = "alert"))).map
      (fun i => ⟨i.title, "medium"⟩),
    weekly_note := "AI generation unavailable. Showing latest RSS feeds." }

/-! ## Derived notions used in claim statements -/

/-- The guard of the existing-timeline pass: the bucket's date parses and
is today or later. -/
def keepDay (today : PDate) (day : Day) : Bool :=
  match parseDate day.date with
  | some d => dateLe today d
  | none => false

/-- A translator response line that `translate_titles_batch` drops: no
`'.'` separator, an unparseable index, or a 1-indexed number outside
`[1, n]`. -/
def invalidLine (l : String) (n : Nat) : Bool :=
  match splitOnceDot l.data with
  | none => true
  | some (p0, _) =>
    match pyIntParse ⟨p0⟩ with
    | none => true
    | some k => !(decide (0 ≤ k - 1) && decide (k - 1 < (n : Int)))

/-- A 100-character article body (for the boundary examples of C3). -/
def bodyChars100 : String := ⟨List.replicate 100 'a'⟩

/-- A 99-character article body (for the boundary examples of C3). -/
def bodyChars99 : String := ⟨List.replicate 99 'b'⟩

/-! # Theorems -/

/-- **C1.**  The AI tier does report the structured errors (`"Quota
Exceeded"` for a 429-class failure, `"Invalid API Key"` for 403), but
`summarize_section` returns a tier-1 result only when it has a `summary`
key, so the structured error dict is discarded: on an input where no lower
tier can produce a summary (one article whose title is empty, no body),
the section's result is the generic `"No summary generated"`, not the
structured category the spec requires. -/
theorem c1_quota_error_discarded :
    summarize_gemini (Except.error "429 Resource has been exhausted") "THE_HINDU" "Front Page"
        [⟨"", "", "", none⟩]
      = some ⟨none, none, none, some "Quota Exceeded"⟩
    ∧ summarize_gemini (Except.error "403 PermissionDenied") "THE_HINDU" "Front Page"
        [⟨"", "", "", none⟩]
      = some ⟨none, none, none, some "Invalid API Key"⟩
    ∧ summarize_section true (Except.error "429 Resource has been exhausted") true (fun _ => none)
        "THE_HINDU" "Front Page" [⟨"", "", "", none⟩]
      = ⟨none, none, none, some "No summary generated"⟩
    ∧ summarize_section true (Except.error "403 PermissionDenied") true (fun _ => none)
        "THE_HINDU" "Front Page" [⟨"", "", "", none⟩]
      = ⟨none, none, none, some "No summary generated"⟩ := by
  refine ⟨by decide, by decide, by decide, by decide⟩

/-- **C10.**  For a bilingual (Tamil) source, an AI response without the
`"|||"` delimiter becomes the whole summary: no `summary_ta` is produced,
no method is recorded, and the result does not depend on the lower tiers
(the AI tier counted as succeeded). -/
theorem c10_tamil_without_delimiter :
    ∀ (hasSumy : Bool) (oracle : String → Option String) (srcName secName : String)
      (arts : List Article) (raw : String),
      strMem srcName tamilSources = true →
      arts ≠ [] →
      strContains (pyStrip raw) "|||" = false →
      summarize_section true (Except.ok raw) hasSumy oracle srcName secName arts
        = ⟨some (pyStrip raw), none, none, none⟩ := by
  intro hasSumy oracle srcName secName arts raw htam hne hbar
  have hg : summarize_gemini (Except.ok raw) srcName secName arts
      = some ⟨some (pyStrip raw), none, none, none⟩ := by
    unfold summarize_gemini
    dsimp only
    rw [if_neg (by simp [hbar])]
  have ht1 : tier1 true (Except.ok raw) srcName secName arts
      = some ⟨some (pyStrip raw), none, none, none⟩ := by
    unfold tier1
    simp only [hg]
    simp
  unfold summarize_section
  rw [if_neg hne, ht1]

/-- **C10 witness.** -/
theorem c10_tamil_without_delimiter_witness :
    summarize_section true (Except.ok "  hello  ") true (fun _ => none) "DINAMANI" "X"
      [⟨"T", "", "", none⟩] = ⟨some (pyStrip "  hello  "), none, none, none⟩ :=
  c10_tamil_without_delimiter true (fun _ => none) "DINAMANI" "X" [⟨"T", "", "", none⟩]
    "  hello  " (by decide) (by decide) (by decide)

/-- **C8.**  `translate_titles_batch` attributes response lines by the
parsed 1-indexed number before the first `'.'`, not by line position: a
raised transport error is a complete no-op; any line without a separator,
with an unparseable index, or with an out-of-bounds index is dropped (a
response consisting only of such lines leaves every article unchanged, in
particular the `"3. Foo"` line with 2 articles); and a single line
`"2. Bar"` sent as the *first* line updates article 2, not article 1. -/
theorem c8_translation_attribution :
    (∀ (modelPresent : Bool) (arts : List Article) (e : String),
       translate_titles_batch modelPresent (Except.error e) arts = arts)
    ∧ (∀ (arts : List Article) (l : String),
         invalidLine l arts.length = true → applyLine arts l = arts)
    ∧ (∀ (arts : List Article) (lines : List String),
         (∀ l ∈ lines, invalidLine l arts.length = true) →
         lines.foldl applyLine arts = arts)
    ∧ translate_titles_batch true (Except.ok "3. Foo")
        [⟨"t1", "", "", none⟩, ⟨"t2", "", "", none⟩]
      = [⟨"t1", "", "", none⟩, ⟨"t2", "", "", none⟩]
    ∧ translate_titles_batch true (Except.ok "2. Bar")
        [⟨"t1", "", "", none⟩, ⟨"t2", "", "", none⟩]
      = [⟨"t1", "", "", none⟩, ⟨"t2", "", "", some "Bar"⟩] := by
  have h2 : ∀ (arts : List Article) (l : String),
      invalidLine l arts.length = true → applyLine arts l = arts := by
    intro arts l h
    cases hs : splitOnceDot l.data with
    | none => simp [applyLine, hs]
    | some p =>
      obtain ⟨p0, p1⟩ := p
      cases hk : pyIntParse ⟨p0⟩ with
      | none => simp [applyLine, hs, hk]
      | some k =>
        simp only [invalidLine, hs, hk, Bool.not_eq_true', Bool.and_eq_false_iff,
          decide_eq_false_iff_not, not_le, not_lt] at h
        have hng : ¬(0 ≤ k - 1 ∧ k - 1 < (arts.length : Int)) := by omega
        simp only [applyLine, hs, hk]
        rw [if_neg hng]
  refine ⟨?_, h2, ?_, by decide, by decide⟩
  · intro mp arts e
    unfold translate_titles_batch
    by_cases hmp : mp = true
    · subst hmp
      by_cases ha : arts = []
      · simp [ha]
      · simp [ha]
    · simp at hmp
      subst hmp
      simp
  · intro arts lines
    induction lines with
    | nil => intro _; rfl
    | cons l ls ih =>
      intro h
      have hl := h l (by simp)
      simp only [List.foldl_cons, h2 arts l hl]
      exact ih (fun x hx => h x (by simp [hx]))

/-- **C8 witness.** -/
theorem c8_translation_attribution_witness :
    (["3. Foo", "x. y", "no separator"].foldl applyLine
        [⟨"t1", "", "", none⟩, ⟨"t2", "", "", none⟩])
      = [⟨"t1", "", "", none⟩, ⟨"t2", "", "", none⟩] :=
  c8_translation_attribution.2.2.1 [⟨"t1", "", "", none⟩, ⟨"t2", "", "", none⟩]
    ["3. Foo", "x. y", "no separator"] (by decide)

/-- **C9.**  In the fallback generator, classification happens first and
the noise denylist gates inclusion, not type: the headline
`"Leo Movie Review Shocking Box Office Numbers"` classifies as `movie` yet
is excluded; in general, every item that reaches the generated document
(timeline bucket, movies, festivals or alerts section) has a non-noisy
title. -/
theorem c9_noise_denylist_gates_inclusion :
    classifyTitle (strLower "Leo Movie Review Shocking Box Office Numbers") = "movie"
    ∧ (∀ (hashF : String → Nat) (todayStr txt : String),
        (∀ day ∈ (generate_fallback_data hashF todayStr txt).timeline,
          ∀ it ∈ day.items, isNoisy (strLower it.title) = false)
        ∧ (∀ e ∈ (generate_fallback_data hashF todayStr txt).movies,
            isNoisy (strLower e.title) = false)
        ∧ (∀ e ∈ (generate_fallback_data hashF todayStr txt).festivals,
            isNoisy (strLower e.title) = false)
        ∧ (∀ e ∈ (generate_fallback_data hashF todayStr txt).alerts,
            isNoisy (strLower e.text) = false))
    ∧ (generate_fallback_data (fun _ => 0) "2024-01-02"
          "- Leo Movie Review Shocking Box Office Numbers (http://x)").timeline
        = [⟨"2024-01-02", "Latest Updates", []⟩] := by
  have hline : ∀ (hashF : String → Nat) (line : String) (it : FItem),
      parseFallbackLine hashF line = some it → isNoisy (strLower it.title) = false := by
    intro hashF line it h
    unfold parseFallbackLine at h
    cases hd : line.data with
    | nil => rw [hd] at h; exact absurd h (by simp)
    | cons c t =>
      rw [hd] at h
      by_cases hc : c = '-'
      · subst hc
        cases t with
        | nil => exact absurd h (by simp)
        | cons c2 t2 =>
          by_cases hc2 : c2 = ' '
          · subst hc2
            simp only [] at h
            by_cases hn : isNoisy (strLower (match lastSplitParen t2 with
              | some (a, b) => ((⟨a⟩ : String), (⟨b.dropLast⟩ : String))
              | none => ((⟨t2⟩ : String), "")).1)
            · rw [if_pos hn] at h; exact absurd h (by simp)
            · rw [if_neg hn] at h
              simp only [Option.some.injEq] at h
              rw [← h]
              simpa using hn
          · exact absurd h (by simp [hc2])
      · exact absurd h (by simp [hc])
  have hitems : ∀ (hashF : String → Nat) (txt : String) (it : FItem),
      it ∈ (splitChar '\n' txt).filterMap (parseFallbackLine hashF) →
      isNoisy (strLower it.title) = false := by
    intro hashF txt it hmem
    rw [List.mem_filterMap] at hmem
    obtain ⟨line, _, hp⟩ := hmem
    exact hline hashF line it hp
  refine ⟨by decide, ?_, by decide⟩
  intro hashF todayStr txt
  refine ⟨?_, ?_, ?_, ?_⟩
  · intro day hday it hit
    unfold generate_fallback_data at hday
    simp only [List.mem_singleton] at hday
    subst hday
    simp only [] at hit
    exact hitems hashF txt it (List.take_subset 20 _ hit)
  · intro e he
    unfold generate_fallback_data at he
    simp only [List.mem_map] at he
    obtain ⟨i, hi, hei⟩ := he
    rw [← hei]
    exact hitems hashF txt i (List.filter_subset' _ hi)
  · intro e he
    unfold generate_fallback_data at he
    simp only [List.mem_map] at he
    obtain ⟨i, hi, hei⟩ := he
    rw [← hei]
    exact hitems hashF txt i (List.filter_subset' _ hi)
  · intro e he
    unfold generate_fallback_data at he
    simp only [List.mem_map] at he
    obtain ⟨i, hi, hei⟩ := he
    rw [← hei]
    exact hitems hashF txt i (List.filter_subset' _ hi)

/-- **C9 witness.** -/
theorem c9_noise_denylist_gates_inclusion_witness :
    isNoisy (strLower "Pongal Celebrations") = false :=
  ((c9_noise_denylist_gates_inclusion.2.1 (fun _ => 0) "2024-01-02"
      "- Pongal Celebrations (http://y)").1
    ⟨"2024-01-02", "Latest Updates",
      [⟨"0", "event", "Pongal Celebrations", "From RSS", "Latest update", "http://y", ["event"]⟩]⟩
    (by decide)
    ⟨"0", "event", "Pongal Celebrations", "From RSS", "Latest update", "http://y", ["event"]⟩
    (by decide))

/-- **C3 counterexample.**  Two article bodies totalling exactly 199
characters: the blank-line separator makes the concatenation 201
characters, `201 > 200`, so the extractive tier is *attempted* (and here
succeeds), instead of being skipped as the claim states. -/
theorem c3_counterexample :
    bodyChars100.length + bodyChars99.length = 199
    ∧ (combinedBody [⟨"T1", "", bodyChars100, none⟩, ⟨"T2", "", bodyChars99, none⟩]).length = 201
    ∧ summarize_section false (Except.error "") true (fun _ => some "SUM") "S" "P"
        [⟨"T1", "", bodyChars100, none⟩, ⟨"T2", "", bodyChars99, none⟩]
      = ⟨some "SUM", none, some "extractive", none⟩ := by
  refine ⟨by decide, by decide, by decide⟩

/-- **C3 (amended).**  The extractive tier runs only when the
concatenation of up to the first 5 non-empty bodies, joined with
blank-line separators, is *strictly longer than* 200 characters (the
separators counted); at 200 or below it is skipped and control falls to
the headlines tier.  Two bodies totalling 199 yield a 201-character
concatenation and the tier is attempted; the skip boundary is a combined
length of exactly 200 (e.g. two 99-character bodies). -/
theorem c3_extractive_threshold_amended :
    (∀ (gem : Except String String) (hasSumy : Bool) (oracle : String → Option String)
       (src sec : String) (arts : List Article),
       arts ≠ [] →
       (combinedBody arts).length ≤ 200 →
       summarize_section false gem hasSumy oracle src sec arts
         = match summarize_headline_bullets arts with
           | some b => ⟨some b, none, some "headlines", none⟩
           | none => ⟨none, none, none, some "No summary generated"⟩)
    ∧ (∀ (gem : Except String String) (src sec : String) (arts : List Article) (s : String),
        s ≠ "" →
        (combinedBody arts).length > 200 →
        summarize_section false gem true (fun _ => some s) src sec arts
          = ⟨some s, none, some "extractive", none⟩)
    ∧ (combinedBody [⟨"T1", "", (⟨List.replicate 99 'a'⟩ : String), none⟩,
          ⟨"T2", "", bodyChars99, none⟩]).length = 200
    ∧ summarize_section false (Except.error "") true (fun _ => some "SUM") "S" "P"
        [⟨"T1", "", (⟨List.replicate 99 'a'⟩ : String), none⟩, ⟨"T2", "", bodyChars99, none⟩]
      = ⟨some "• T1\n• T2", none, some "headlines", none⟩ := by
  refine ⟨?_, ?_, by set_option maxRecDepth 4000 in decide, by set_option maxRecDepth 4000 in decide⟩
  · intro gem hasSumy oracle src sec arts hne hlen
    have ht2 : tier2 hasSumy oracle arts = none := by
      unfold tier2
      by_cases hbt : bodyTexts arts = []
      · rw [if_neg (by simp [hbt])]
      · rw [if_pos hbt]
        rw [if_neg (by omega : ¬(combinedBody arts).length > 200)]
    unfold summarize_section
    rw [if_neg hne]
    have ht1 : tier1 false gem src sec arts = none := rfl
    rw [ht1, ht2]
    unfold tier3
    rfl
  · intro gem src sec arts s hs hlen
    have hne : arts ≠ [] := by
      intro h
      subst h
      exact absurd hlen (by decide)
    have hbt : bodyTexts arts ≠ [] := by
      intro h
      rw [combinedBody, h] at hlen
      exact absurd hlen (by decide)
    have hcne : combinedBody arts ≠ "" := by
      intro h
      rw [h] at hlen
      exact absurd hlen (by decide)
    have ht2 : tier2 true (fun _ => some s) arts
        = some ⟨some s, none, some "extractive", none⟩ := by
      unfold tier2
      rw [if_pos hbt, if_pos hlen]
      unfold summarize_extractive_sumy
      rw [if_neg (by push_neg; exact ⟨by simp, hcne, by omega⟩)]
      simp [hs]
    unfold summarize_section
    rw [if_neg hne]
    have ht1 : tier1 false gem src sec arts = none := rfl
    rw [ht1, ht2]

/-- **C3 witness.** -/
theorem c3_extractive_threshold_amended_witness :
    summarize_section false (Except.error "x") true (fun _ => some "SUMMARY") "SRC" "PAGE"
        [⟨"T1", "", bodyChars100, none⟩, ⟨"T2", "", bodyChars99, none⟩]
      = ⟨some "SUMMARY", none, some "extractive", none⟩ :=
  c3_extractive_threshold_amended.2.1 (Except.error "x") "SRC" "PAGE"
    [⟨"T1", "", bodyChars100, none⟩, ⟨"T2", "", bodyChars99, none⟩] "SUMMARY"
    (by decide) (by set_option maxRecDepth 4000 in decide)

/-- A tier-1 result with a `summary` key never carries an `error` key. -/
theorem summarize_gemini_ok_error_none :
    ∀ (gem : Except String String) (src sec : String) (arts : List Article) (r : SummResult),
      summarize_gemini gem src sec arts = some r → r.summary.isSome = true → r.error = none := by
  intro gem src sec arts r h hs
  cases gem with
  | ok raw =>
    unfold summarize_gemini at h
    dsimp only at h
    by_cases hb : strMem src tamilSources = true ∧ strContains (pyStrip raw) "|||" = true
    · rw [if_pos hb] at h
      injection h with h
      rw [← h]
    · rw [if_neg hb] at h
      injection h with h
      rw [← h]
  | error e =>
    unfold summarize_gemini at h
    dsimp only at h
    by_cases h4 : strContains e "429" = true
    · rw [if_pos h4] at h
      injection h with h
      rw [← h] at hs
      exact absurd hs (by decide)
    · rw [if_neg h4] at h
      by_cases h3 : strContains e "403" = true
      · rw [if_pos h3] at h
        injection h with h
        rw [← h] at hs
        exact absurd hs (by decide)
      · rw [if_neg h3] at h
        exact absurd h (by simp)

/-- Every result of `summarize_section` lacks a `summary` or lacks an
`error`. -/
theorem summarize_section_shape :
    ∀ (mp : Bool) (gem : Except String String) (hasSumy : Bool)
      (oracle : String → Option String) (src sec : String) (arts : List Article),
      (summarize_section mp gem hasSumy oracle src sec arts).summary = none ∨
      (summarize_section mp gem hasSumy oracle src sec arts).error = none := by
  intro mp gem hasSumy oracle src sec arts
  unfold summarize_section
  by_cases ha : arts = []
  · rw [if_pos ha]
    exact Or.inl rfl
  · rw [if_neg ha]
    cases h1 : tier1 mp gem src sec arts with
    | some r =>
      right
      unfold tier1 at h1
      by_cases hmp : mp = true
      · rw [if_pos hmp] at h1
        cases hg : summarize_gemini gem src sec arts with
        | some r2 =>
          simp only [hg] at h1
          by_cases hsum : r2.summary.isSome = true
          · rw [if_pos hsum] at h1
            injection h1 with h1
            subst h1
            exact summarize_gemini_ok_error_none _ _ _ _ _ hg hsum
          · rw [if_neg hsum] at h1
            exact absurd h1 (by simp)
        | none =>
          simp only [hg] at h1
          exact absurd h1 (by simp)
      · rw [if_neg hmp] at h1
        exact absurd h1 (by simp)
    | none =>
      cases h2 : tier2 hasSumy oracle arts with
      | some r =>
        right
        unfold tier2 at h2
        by_cases hbt : bodyTexts arts ≠ []
        · rw [if_pos hbt] at h2
          by_cases hlen : (combinedBody arts).length > 200
          · rw [if_pos hlen] at h2
            cases hsum : summarize_extractive_sumy hasSumy oracle (combinedBody arts) with
            | some s =>
              simp only [hsum] at h2
              by_cases hse : s ≠ ""
              · rw [if_pos hse] at h2
                injection h2 with h2
                subst h2
                rfl
              · rw [if_neg hse] at h2
                exact absurd h2 (by simp)
            | none =>
              simp only [hsum] at h2
              exact absurd h2 (by simp)
          · rw [if_neg hlen] at h2
            exact absurd h2 (by simp)
        · rw [if_neg hbt] at h2
          exact absurd h2 (by simp)
      | none =>
        unfold tier3
        cases hb : summarize_headline_bullets arts with
        | some b => exact Or.inr rfl
        | none => exact Or.inl rfl

/-- **C5 counterexample.**  A non-empty article list (a single article
whose title is a single space, no body, no model) still yields an error:
the headlines tier strips titles and skips empty ones, so it produces
nothing and `summarize_section` returns `"No summary generated"` —
refuting "error is unreachable with at least one article". -/
theorem c5_counterexample :
    ([⟨" ", "", "", none⟩] : List Article) ≠ []
    ∧ summarize_section false (Except.error "x") true (fun _ => none) "S" "P"
        [⟨" ", "", "", none⟩]
      = ⟨none, none, none, some "No summary generated"⟩ := by
  refine ⟨by decide, by decide⟩

/-- The headlines tier fails on a non-empty list exactly when no article
among the first 10 has a non-whitespace title. -/
theorem summarize_headline_bullets_none_iff :
    ∀ (arts : List Article), arts ≠ [] →
      (summarize_headline_bullets arts = none ↔
        ∀ a ∈ arts.take 10, pyStrip a.title = "") := by
  intro arts hne
  unfold summarize_headline_bullets
  rw [if_neg hne]
  constructor
  · intro h a ha
    by_cases hl : ((arts.take 10).filterMap (fun a =>
        let t := pyStrip a.title
        if t ≠ "" then some ("• " ++ t) else none)) = []
    · have := List.filterMap_eq_nil_iff.mp hl a ha
      by_cases ht : pyStrip a.title = ""
      · exact ht
      · rw [if_pos ht] at this
        exact absurd this (by simp)
    · rw [if_neg hl] at h
      exact absurd h (by simp)
  · intro h
    have hl : ((arts.take 10).filterMap (fun a =>
        let t := pyStrip a.title
        if t ≠ "" then some ("• " ++ t) else none)) = [] := by
      apply List.filterMap_eq_nil_iff.mpr
      intro a ha
      rw [if_neg (by simp [h a ha])]
    rw [if_pos hl]

/-- **C5 (amended).**  `summarize_section` never returns both a summary
and an error; with no lower-tier input (no model, all bodies empty) it
errors **iff** the article list is empty *or no article among the first 10
has a non-whitespace title* — the headlines tier is not unconditionally
available, since it skips articles whose stripped title is empty; when it
does fire it returns the bullet list deterministically. -/
theorem c5_error_conditions_amended :
    (∀ (mp : Bool) (gem : Except String String) (hasSumy : Bool)
       (oracle : String → Option String) (src sec : String) (arts : List Article),
       ¬((summarize_section mp gem hasSumy oracle src sec arts).summary.isSome = true ∧
         (summarize_section mp gem hasSumy oracle src sec arts).error.isSome = true))
    ∧ (∀ (gem : Except String String) (hasSumy : Bool) (oracle : String → Option String)
         (src sec : String) (arts : List Article),
        (∀ a ∈ arts, a.body = "") →
        ((summarize_section false gem hasSumy oracle src sec arts).error.isSome = true ↔
          arts = [] ∨ ∀ a ∈ arts.take 10, pyStrip a.title = ""))
    ∧ summarize_section false (Except.error "x") true (fun _ => none) "S" "P"
        [⟨"Hello", "", "", none⟩]
      = ⟨some "• Hello", none, some "headlines", none⟩ := by
  refine ⟨?_, ?_, by decide⟩
  · intro mp gem hasSumy oracle src sec arts hc
    obtain ⟨h1, h2⟩ := hc
    rcases summarize_section_shape mp gem hasSumy oracle src sec arts with h | h
    · rw [h] at h1
      exact absurd h1 (by decide)
    · rw [h] at h2
      exact absurd h2 (by decide)
  · intro gem hasSumy oracle src sec arts hbody
    have hbt : bodyTexts arts = [] := by
      unfold bodyTexts
      rw [List.filter_eq_nil_iff.mpr (by intro a ha; simp [hbody a ha])]
      rfl
    have ht2 : tier2 hasSumy oracle arts = none := by
      unfold tier2
      rw [if_neg (by simp [hbt])]
    by_cases ha : arts = []
    · subst ha
      simp [summarize_section]
    · unfold summarize_section
      rw [if_neg ha]
      have ht1 : tier1 false gem src sec arts = none := rfl
      rw [ht1, ht2]
      unfold tier3
      cases hb : summarize_headline_bullets arts with
      | some b =>
        apply iff_of_false (by simp)
        intro hcases
        rcases hcases with h | h
        · exact ha h
        · rw [(summarize_headline_bullets_none_iff arts ha).mpr h] at hb
          exact absurd hb (by simp)
      | none =>
        apply iff_of_true (by rfl)
        exact Or.inr ((summarize_headline_bullets_none_iff arts ha).mp hb)

/-- **C5 witness.** -/
theorem c5_error_conditions_amended_witness :
    (summarize_section false (Except.error "x") true (fun _ => none) "S" "P"
        [⟨" ", "", "", none⟩]).error.isSome = true ↔
      ([⟨" ", "", "", none⟩] : List Article) = [] ∨
        ∀ a ∈ ([⟨" ", "", "", none⟩] : List Article).take 10, pyStrip a.title = "" :=
  c5_error_conditions_amended.2.1 (Except.error "x") true (fun _ => none) "S" "P"
    [⟨" ", "", "", none⟩] (by decide)

/-! ## Merge lemmas -/

/-- A bucket outside the keep-guard contributes nothing to the
existing-timeline pass. -/
theorem seedStep_skip (today : PDate) (mp : List (String × Day)) (day : Day)
    (h : keepDay today day = false) : seedStep today mp day = mp := by
  unfold seedStep
  cases hp : parseDate day.date with
  | none => rfl
  | some d =>
    simp only [keepDay, hp] at h
    simp [h]

/-- Filtering the existing timeline by any predicate implied by the
keep-guard does not change the seed map. -/
theorem foldl_seed_congr (today : PDate) (p : Day → Bool)
    (hp : ∀ day, p day = false → keepDay today day = false) :
    ∀ (tl : List Day) (mp : List (String × Day)),
      (tl.filter p).foldl (seedStep today) mp = tl.foldl (seedStep today) mp := by
  intro tl
  induction tl with
  | nil => intro mp; rfl
  | cons d t ih =>
    intro mp
    rw [List.filter_cons]
    by_cases hd : p d = true
    · rw [if_pos hd]
      simp only [List.foldl_cons]
      exact ih (seedStep today mp d)
    · rw [if_neg hd]
      simp only [List.foldl_cons]
      rw [seedStep_skip today mp d (hp d (by simpa using hd))]
      exact ih mp

/-- **C6.**  Every bucket of the *existing* timeline whose date is
strictly before today is dropped by the merge — removing all such buckets
from the existing document beforehand does not change the result at all —
while buckets dated today or later are retained; on the claim's concrete
instance only the incoming `2024-01-02` bucket with item `B` survives. -/
theorem c6_past_existing_buckets_dropped :
    (∀ (today : PDate) (ex nd : Doc) (tl : List Day),
       ex.timeline = some tl →
       merge_data today (some ex) nd
         = merge_data today (some { ex with timeline := some (tl.filter (keepDay today)) }) nd)
    ∧ (merge_data ⟨2024, 1, 2⟩
         (some ⟨some [⟨"2024-01-01", "D1", [⟨some "A", "a"⟩]⟩], none, none⟩)
         ⟨some [⟨"2024-01-02", "D2", [⟨some "B", "b"⟩]⟩], none, none⟩).timeline
        = some [⟨"2024-01-02", "D2", [⟨some "B", "b"⟩]⟩] := by
  constructor
  · intro today ex nd tl h
    have h1 : docTruthy ex = true := by simp [docTruthy, h]
    have h2 : docTruthy { ex with timeline := some (tl.filter (keepDay today)) } = true := by
      simp [docTruthy]
    have hseed : seedMap today (tl.filter (keepDay today)) = seedMap today tl := by
      unfold seedMap
      exact foldl_seed_congr today (keepDay today) (fun day hd => hd) tl []
    unfold merge_data
    dsimp only
    simp only [h1, h2, Bool.not_true, Bool.false_eq_true, if_false, h]
    rw [hseed]
  · decide

/-- **C6 witness.** -/
theorem c6_past_existing_buckets_dropped_witness :
    merge_data ⟨2024, 1, 2⟩
        (some ⟨some [⟨"2024-01-01", "D1", [⟨some "A", "a"⟩]⟩], none, none⟩)
        ⟨some [⟨"2024-01-02", "D2", [⟨some "B", "b"⟩]⟩], none, none⟩
      = merge_data ⟨2024, 1, 2⟩
        (some ⟨some ([⟨"2024-01-01", "D1", [⟨some "A", "a"⟩]⟩].filter (keepDay ⟨2024, 1, 2⟩)),
          none, none⟩)
        ⟨some [⟨"2024-01-02", "D2", [⟨some "B", "b"⟩]⟩], none, none⟩ :=
  c6_past_existing_buckets_dropped.1 ⟨2024, 1, 2⟩
    ⟨some [⟨"2024-01-01", "D1", [⟨some "A", "a"⟩]⟩], none, none⟩
    ⟨some [⟨"2024-01-02", "D2", [⟨some "B", "b"⟩]⟩], none, none⟩
    [⟨"2024-01-01", "D1", [⟨some "A", "a"⟩]⟩] rfl

/-- A successful lookup exposes a member of the association list. -/
theorem alLookup_mem :
    ∀ (mp : List (String × Day)) (k : String) (v : Day),
      alLookup mp k = some v → (k, v) ∈ mp := by
  intro mp
  induction mp with
  | nil => intro k v h; exact absurd h (by simp [alLookup])
  | cons e t ih =>
    intro k v h
    obtain ⟨k2, v2⟩ := e
    unfold alLookup at h
    by_cases hk : k2 = k
    · rw [if_pos hk] at h
      injection h with h
      subst hk
      subst h
      exact List.mem_cons_self _ _
    · rw [if_neg hk] at h
      exact List.mem_cons_of_mem _ (ih k v h)

/-- Lookup distributes over append. -/
theorem alLookup_append :
    ∀ (mp l2 : List (String × Day)) (k : String),
      alLookup (mp ++ l2) k
        = match alLookup mp k with
          | some v => some v
          | none => alLookup l2 k := by
  intro mp
  induction mp with
  | nil => intro l2 k; rfl
  | cons e t ih =>
    intro l2 k
    obtain ⟨k2, v2⟩ := e
    by_cases hk : k2 = k
    · simp [alLookup, hk]
    · simp only [List.cons_append, alLookup, if_neg hk]
      exact ih l2 k

/-- Inserting at a key makes it found with the new value. -/
theorem alLookup_alInsert_self :
    ∀ (mp : List (String × Day)) (k : String) (v : Day),
      alLookup (alInsert mp k v) k = some v := by
  have hrepl : ∀ (k : String) (v : Day) (mp : List (String × Day)),
      (alLookup mp k).isSome = true →
      alLookup (mp.map (fun e => if e.1 = k then (k, v) else e)) k = some v := by
    intro k v mp
    induction mp with
    | nil => intro h; exact absurd h (by simp [alLookup])
    | cons e t ih =>
      intro h
      obtain ⟨ka, va⟩ := e
      by_cases hk : ka = k
      · simp only [List.map_cons]
        dsimp only
        rw [if_pos hk]
        simp [alLookup]
      · simp only [List.map_cons]
        dsimp only
        rw [if_neg hk]
        simp only [alLookup]
        rw [if_neg hk]
        apply ih
        simp only [alLookup] at h
        rw [if_neg hk] at h
        exact h
  intro mp k v
  unfold alInsert
  by_cases hl : (alLookup mp k).isSome
  · rw [if_pos hl]
    exact hrepl k v mp hl
  · rw [if_neg hl]
    rw [alLookup_append]
    rw [Option.not_isSome_iff_eq_none] at hl
    rw [hl]
    simp [alLookup]

/-- Inserting at a different key leaves a lookup unchanged. -/
theorem alLookup_alInsert_ne :
    ∀ (mp : List (String × Day)) (k2 k : String) (v : Day), k2 ≠ k →
      alLookup (alInsert mp k2 v) k = alLookup mp k := by
  have hrepl : ∀ (k2 k : String) (v : Day), k2 ≠ k → ∀ (mp : List (String × Day)),
      alLookup (mp.map (fun e => if e.1 = k2 then (k2, v) else e)) k = alLookup mp k := by
    intro k2 k v hne mp
    induction mp with
    | nil => rfl
    | cons e t ih =>
      obtain ⟨ka, va⟩ := e
      by_cases hk : ka = k2
      · have hka : ka ≠ k := by rw [hk]; exact hne
        simp only [List.map_cons]
        dsimp only
        rw [if_pos hk]
        simp only [alLookup]
        rw [if_neg hne, if_neg hka]
        exact ih
      · simp only [List.map_cons]
        dsimp only
        rw [if_neg hk]
        simp only [alLookup]
        by_cases hak : ka = k
        · rw [if_pos hak, if_pos hak]
        · rw [if_neg hak, if_neg hak]
          exact ih
  intro mp k2 k v hne
  unfold alInsert
  by_cases hl : (alLookup mp k2).isSome
  · rw [if_pos hl]
    exact hrepl k2 k v hne mp
  · rw [if_neg hl]
    rw [alLookup_append]
    cases h : alLookup mp k with
    | some v2 => rfl
    | none => simp [alLookup, if_neg hne]

/-- The map invariant: every entry's value carries its key as date. -/
def keyInv (mp : List (String × Day)) : Prop :=
  ∀ e ∈ mp, (e.2).date = e.1

theorem keyInv_alInsert :
    ∀ (mp : List (String × Day)) (k : String) (v : Day),
      keyInv mp → v.date = k → keyInv (alInsert mp k v) := by
  intro mp k v hmp hv
  unfold alInsert
  by_cases hl : (alLookup mp k).isSome
  · rw [if_pos hl]
    intro e he
    rw [List.mem_map] at he
    obtain ⟨e0, he0, heq⟩ := he
    by_cases hk : e0.1 = k
    · rw [if_pos hk] at heq
      rw [← heq]
      exact hv
    · rw [if_neg hk] at heq
      rw [← heq]
      exact hmp e0 he0
  · rw [if_neg hl]
    intro e he
    rw [List.mem_append] at he
    rcases he with he | he
    · exact hmp e he
    · simp only [List.mem_singleton] at he
      rw [he]
      exact hv

theorem keyInv_seedStep :
    ∀ (today : PDate) (mp : List (String × Day)) (day : Day),
      keyInv mp → keyInv (seedStep today mp day) := by
  intro today mp day hmp
  unfold seedStep
  cases hp : parseDate day.date with
  | none => exact hmp
  | some d =>
    dsimp only
    by_cases hd : dateLe today d = true
    · rw [if_pos hd]
      exact keyInv_alInsert mp day.date day hmp rfl
    · rw [if_neg hd]
      exact hmp

theorem keyInv_seedMap :
    ∀ (today : PDate) (tl : List Day), keyInv (seedMap today tl) := by
  intro today tl
  have hgen : ∀ (l : List Day) (mp : List (String × Day)),
      keyInv mp → keyInv (l.foldl (seedStep today) mp) := by
    intro l
    induction l with
    | nil => intro mp h; exact h
    | cons d t ih =>
      intro mp h
      exact ih (seedStep today mp d) (keyInv_seedStep today mp d h)
  exact hgen tl [] (by intro e he; exact absurd he (by simp))

theorem keyInv_addStep :
    ∀ (mp : List (String × Day)) (day : Day), keyInv mp → keyInv (addStep mp day) := by
  intro mp day hmp
  unfold addStep
  cases hl : alLookup mp day.date with
  | none =>
    intro e he
    rw [List.mem_append] at he
    rcases he with he | he
    · exact hmp e he
    · simp only [List.mem_singleton] at he
      rw [he]
  | some exDay =>
    have hex : exDay.date = day.date := hmp (day.date, exDay) (alLookup_mem mp day.date exDay hl)
    apply keyInv_alInsert mp day.date (mergeDay exDay day) hmp
    exact hex

theorem keyInv_addNew :
    ∀ (tl : List Day) (mp : List (String × Day)), keyInv mp → keyInv (addNew mp tl) := by
  intro tl
  induction tl with
  | nil => intro mp h; exact h
  | cons d t ih =>
    intro mp h
    exact ih (addStep mp d) (keyInv_addStep mp d h)

theorem alLookup_isSome_addStep :
    ∀ (mp : List (String × Day)) (day : Day) (k : String),
      (alLookup mp k).isSome = true → (alLookup (addStep mp day) k).isSome = true := by
  intro mp day k h
  unfold addStep
  cases hl : alLookup mp day.date with
  | none =>
    rw [alLookup_append]
    rw [Option.isSome_iff_exists] at h
    obtain ⟨v, hv⟩ := h
    rw [hv]
    simp
  | some exDay =>
    by_cases hk : day.date = k
    · rw [← hk]
      rw [alLookup_alInsert_self]
      simp
    · rw [alLookup_alInsert_ne mp day.date k _ hk]
      exact h

theorem alLookup_isSome_addStep_self :
    ∀ (mp : List (String × Day)) (day : Day),
      (alLookup (addStep mp day) day.date).isSome = true := by
  intro mp day
  unfold addStep
  cases hl : alLookup mp day.date with
  | none =>
    rw [alLookup_append, hl]
    simp [alLookup]
  | some exDay =>
    rw [alLookup_alInsert_self]
    simp

theorem alLookup_isSome_addNew :
    ∀ (tl : List Day) (mp : List (String × Day)) (k : String),
      (alLookup mp k).isSome = true → (alLookup (addNew mp tl) k).isSome = true := by
  intro tl
  induction tl with
  | nil => intro mp k h; exact h
  | cons d t ih =>
    intro mp k h
    exact ih (addStep mp d) k (alLookup_isSome_addStep mp d k h)

theorem alLookup_isSome_addNew_mem :
    ∀ (tl : List Day) (mp : List (String × Day)) (day : Day), day ∈ tl →
      (alLookup (addNew mp tl) day.date).isSome = true := by
  intro tl
  induction tl with
  | nil => intro mp day h; exact absurd h (by simp)
  | cons d t ih =>
    intro mp day h
    rcases List.mem_cons.mp h with h | h
    · subst h
      exact alLookup_isSome_addNew t (addStep mp day) day.date
        (alLookup_isSome_addStep_self mp day)
    · exact ih (addStep mp d) day h

theorem mem_insertByDate :
    ∀ (l : List Day) (d a : Day), a ∈ insertByDate d l ↔ a = d ∨ a ∈ l := by
  intro l
  induction l with
  | nil => intro d a; simp [insertByDate]
  | cons e t ih =>
    intro d a
    unfold insertByDate
    by_cases hlt : strLt d.date e.date = true
    · rw [if_pos hlt]
      simp
    · rw [if_neg hlt]
      simp only [List.mem_cons, ih]
      tauto

theorem mem_sortByDate :
    ∀ (l : List Day) (a : Day), a ∈ sortByDate l ↔ a ∈ l := by
  intro l
  induction l with
  | nil => intro a; simp [sortByDate]
  | cons d t ih =>
    intro a
    unfold sortByDate
    rw [mem_insertByDate, ih]
    simp

/-- **C7 counterexample.**  Only the *existing* side is date-validated:
an incoming bucket whose date string `"also-bad"` fails to parse is kept
in the merged timeline, refuting "for every timeline bucket of either
input ... that bucket is dropped".  (The existing side's bad bucket is
indeed dropped.) -/
theorem c7_counterexample :
    parseDate "also-bad" = none
    ∧ (merge_data ⟨2024, 1, 1⟩
         (some ⟨some [⟨"bad-date-x", "L", [⟨some "A", "a"⟩]⟩], none, none⟩)
         ⟨some [⟨"also-bad", "L2", [⟨some "B", "b"⟩]⟩], none, none⟩).timeline
        = some [⟨"also-bad", "L2", [⟨some "B", "b"⟩]⟩] := by
  refine ⟨by decide, by decide⟩

/-- **C7 (amended).**  `merge_data` (a total function in this model) never
aborts, and date validation applies to the *existing* document only:
dropping the existing buckets whose date fails to parse changes nothing,
while every incoming bucket — parseable date or not — contributes a bucket
with its date to the merged timeline. -/
theorem c7_unparseable_dates_amended :
    (∀ (today : PDate) (ex nd : Doc) (tl : List Day),
       ex.timeline = some tl →
       merge_data today (some ex) nd
         = merge_data today
             (some { ex with timeline := some (tl.filter (fun d => (parseDate d.date).isSome)) })
             nd)
    ∧ (∀ (today : PDate) (ex nd : Doc) (tlN : List Day),
        docTruthy ex = true → nd.timeline = some tlN →
        ∀ day ∈ tlN, ∃ day2,
          day2 ∈ ((merge_data today (some ex) nd).timeline.getD []) ∧ day2.date = day.date) := by
  constructor
  · intro today ex nd tl h
    have h1 : docTruthy ex = true := by simp [docTruthy, h]
    have h2 : docTruthy
        { ex with timeline := some (tl.filter (fun d => (parseDate d.date).isSome)) } = true := by
      simp [docTruthy]
    have hseed : seedMap today (tl.filter (fun d => (parseDate d.date).isSome))
        = seedMap today tl := by
      unfold seedMap
      apply foldl_seed_congr
      intro day hd
      unfold keepDay
      cases hp : parseDate day.date with
      | none => rfl
      | some d =>
        rw [hp] at hd
        exact absurd hd (by simp)
    unfold merge_data
    dsimp only
    simp only [h1, h2, Bool.not_true, Bool.false_eq_true, if_false, h]
    rw [hseed]
  · intro today ex nd tlN htruthy hnd day hday
    have hkey : keyInv (match ex.timeline with
        | some tl => seedMap today tl
        | none => []) := by
      cases ex.timeline with
      | some tl => exact keyInv_seedMap today tl
      | none => intro e he; exact absurd he (by simp)
    have hsome := alLookup_isSome_addNew_mem tlN
      (match ex.timeline with | some tl => seedMap today tl | none => []) day hday
    rw [Option.isSome_iff_exists] at hsome
    obtain ⟨v, hv⟩ := hsome
    have hmem := alLookup_mem _ _ _ hv
    have hvdate : v.date = day.date :=
      keyInv_addNew tlN _ hkey (day.date, v) hmem
    refine ⟨v, ?_, hvdate⟩
    unfold merge_data
    dsimp only
    simp only [htruthy, Bool.not_true, Bool.false_eq_true, if_false, hnd]
    rw [Option.getD_some]
    rw [mem_sortByDate]
    exact List.mem_map.mpr ⟨(day.date, v), hmem, rfl⟩

/-- **C7 witness.** -/
theorem c7_unparseable_dates_amended_witness :
    ∃ day2,
      day2 ∈ ((merge_data ⟨2024, 1, 1⟩
          (some ⟨some [⟨"bad-date-x", "L", [⟨some "A", "a"⟩]⟩], none, none⟩)
          ⟨some [⟨"also-bad", "L2", [⟨some "B", "b"⟩]⟩], none, none⟩).timeline.getD [])
        ∧ day2.date = "also-bad" :=
  c7_unparseable_dates_amended.2 ⟨2024, 1, 1⟩
    ⟨some [⟨"bad-date-x", "L", [⟨some "A", "a"⟩]⟩], none, none⟩
    ⟨some [⟨"also-bad", "L2", [⟨some "B", "b"⟩]⟩], none, none⟩
    [⟨"also-bad", "L2", [⟨some "B", "b"⟩]⟩] (by decide) rfl
    ⟨"also-bad", "L2", [⟨some "B", "b"⟩]⟩ (by decide)

/-- **C4 counterexample.**  The timeline dedup key is the lower-cased
title *without* trimming: merging a bucket holding `{title:"X"}` with an
incoming `{title:" x "}` appends the incoming item even though the
trimmed lower-cased titles coincide — the claim's "lower-cased, trimmed"
identity predicts it would be dropped. -/
theorem c4_counterexample :
    strLower (pyStrip " x ") = strLower (pyStrip "X")
    ∧ (merge_data ⟨2024, 1, 1⟩
         (some ⟨some [⟨"2099-01-01", "L", [⟨some "X", "x1"⟩]⟩], none, none⟩)
         ⟨some [⟨"2099-01-01", "L2", [⟨some " x ", "x2"⟩]⟩], none, none⟩).timeline
        = some [⟨"2099-01-01", "L", [⟨some "X", "x1"⟩, ⟨some " x ", "x2"⟩]⟩] := by
  refine ⟨by decide, by decide⟩

/-- **C4 (amended).**  When both timelines contain a bucket for the same
(valid, not-past) date, an incoming item is appended iff its lower-cased
— but *untrimmed* — title is absent from the existing bucket's lower-cased
item titles; existing items keep their content, casing and relative order;
the claim's concrete example `[{X}] + [{x},{Y}] = [{X},{Y}]` does hold
(no whitespace involved). -/
theorem c4_samedate_merge_amended :
    (∀ (today pd : PDate) (exDay ndDay : Day),
       parseDate exDay.date = some pd →
       dateLe today pd = true →
       ndDay.date = exDay.date →
       (merge_data today (some ⟨some [exDay], none, none⟩)
           ⟨some [ndDay], none, none⟩).timeline
         = some [{ exDay with items := exDay.items ++ ndDay.items.filter (fun i =>
             !(strMem (strLower (i.title.getD ""))
                (exDay.items.map (fun j => strLower (j.title.getD ""))))) }])
    ∧ (merge_data ⟨2024, 1, 1⟩
         (some ⟨some [⟨"2099-01-01", "L", [⟨some "X", "x1"⟩]⟩], none, none⟩)
         ⟨some [⟨"2099-01-01", "L2", [⟨some "x", "x2"⟩, ⟨some "Y", "y"⟩]⟩], none, none⟩).timeline
        = some [⟨"2099-01-01", "L", [⟨some "X", "x1"⟩, ⟨some "Y", "y"⟩]⟩] := by
  constructor
  · intro today pd exDay ndDay hp hf hdate
    have hseed : seedMap today [exDay] = [(exDay.date, exDay)] := by
      unfold seedMap
      simp only [List.foldl_cons, List.foldl_nil]
      unfold seedStep
      simp only [hp]
      rw [if_pos hf]
      rfl
    have hadd : addNew [(exDay.date, exDay)] [ndDay]
        = [(exDay.date, mergeDay exDay ndDay)] := by
      unfold addNew
      simp only [List.foldl_cons, List.foldl_nil]
      unfold addStep
      rw [hdate]
      have hlook : alLookup [(exDay.date, exDay)] exDay.date = some exDay := by
        simp [alLookup]
      rw [hlook]
      unfold alInsert
      rw [hlook]
      simp
    unfold merge_data
    dsimp only
    rw [hseed, hadd]
    dsimp only [docTruthy]
    simp only [Option.isSome_some, Bool.true_or, Bool.not_true, Bool.false_eq_true, if_false]
    unfold sortByDate insertByDate
    unfold mergeDay
    dsimp only
    rfl
  · decide

/-- **C4 witness.** -/
theorem c4_samedate_merge_amended_witness :
    (merge_data ⟨2024, 1, 1⟩
        (some ⟨some [⟨"2099-01-01", "L", [⟨some "X", "x1"⟩]⟩], none, none⟩)
        ⟨some [⟨"2099-01-01", "L2", [⟨some "x", "x2"⟩, ⟨some " x ", "x3"⟩]⟩], none, none⟩).timeline
      = some [{ (⟨"2099-01-01", "L", [⟨some "X", "x1"⟩]⟩ : Day) with
          items := [⟨some "X", "x1"⟩] ++
            [⟨some "x", "x2"⟩, ⟨some " x ", "x3"⟩].filter (fun i =>
              !(strMem (strLower (i.title.getD ""))
                ([(⟨some "X", "x1"⟩ : Item)].map (fun j => strLower (j.title.getD ""))))) }] :=
  c4_samedate_merge_amended.1 ⟨2024, 1, 1⟩ ⟨2099, 1, 1⟩
    ⟨"2099-01-01", "L", [⟨some "X", "x1"⟩]⟩
    ⟨"2099-01-01", "L2", [⟨some "x", "x2"⟩, ⟨some " x ", "x3"⟩]⟩
    (by decide) (by decide) rfl

/-! ## Self-merge (idempotence) lemmas for C2 -/

theorem strMem_iff : ∀ (s : String) (l : List String), strMem s l = true ↔ s ∈ l := by
  intro s l
  induction l with
  | nil => simp [strMem]
  | cons x t ih =>
    unfold strMem
    by_cases hx : x = s
    · simp [hx]
    · rw [if_neg hx]
      simp only [List.mem_cons, ih]
      constructor
      · intro h; exact Or.inr h
      · intro h
        rcases h with h | h
        · exact absurd h.symm hx
        · exact h

/-- Merging a day-bucket with itself changes nothing: every incoming
title is already among the existing titles. -/
theorem mergeDay_self : ∀ (d : Day), mergeDay d d = d := by
  intro d
  unfold mergeDay
  have hfil : d.items.filter (fun i =>
      !(strMem (strLower (i.title.getD "")) (d.items.map (fun j => strLower (j.title.getD "")))))
      = [] := by
    apply List.filter_eq_nil_iff.mpr
    intro i hi
    have hmem : strMem (strLower (i.title.getD ""))
        (d.items.map (fun j => strLower (j.title.getD ""))) = true := by
      rw [strMem_iff]
      exact List.mem_map_of_mem _ hi
    simp [hmem]
  dsimp only
  rw [hfil, List.append_nil]

/-- Insertion at a fresh key appends. -/
theorem alInsert_fresh :
    ∀ (mp : List (String × Day)) (k : String) (v : Day),
      alLookup mp k = none → alInsert mp k v = mp ++ [(k, v)] := by
  intro mp k v h
  unfold alInsert
  rw [h]
  rfl

/-- Reinserting the value already present at a key is the identity (keys
unique). -/
theorem alInsert_self_eq :
    ∀ (mp : List (String × Day)) (k : String) (v : Day),
      alLookup mp k = some v → (mp.map Prod.fst).Nodup → alInsert mp k v = mp := by
  intro mp k v hl hnd
  unfold alInsert
  rw [hl]
  simp only [Option.isSome_some, if_pos]
  induction mp with
  | nil => rfl
  | cons e t ih =>
    obtain ⟨ka, va⟩ := e
    simp only [List.map_cons, List.nodup_cons] at hnd
    by_cases hk : ka = k
    · subst hk
      simp only [alLookup, if_pos rfl] at hl
      injection hl with hl
      subst hl
      have htail : t.map (fun e => if e.1 = ka then (ka, va) else e) = t := by
        have hie : ∀ e ∈ t, (if e.1 = ka then (ka, va) else e) = e := by
          intro e he
          rw [if_neg]
          intro hc
          exact hnd.1 (hc ▸ List.mem_map_of_mem Prod.fst he)
        calc t.map (fun e => if e.1 = ka then (ka, va) else e)
            = t.map id := List.map_congr_left hie
          _ = t := List.map_id t
      simp only [List.map_cons, htail, ite_self]
    · simp only [alLookup, if_neg hk] at hl
      simp only [List.map_cons]
      simp [ih hl hnd.2, hk]

/-- A `none` lookup means the key is absent. -/
theorem alLookup_none_not_key :
    ∀ (mp : List (String × Day)) (k : String),
      alLookup mp k = none → k ∉ mp.map Prod.fst := by
  intro mp
  induction mp with
  | nil => intro k _ h; exact absurd h (by simp)
  | cons e t ih =>
    intro k hl hmem
    obtain ⟨ka, va⟩ := e
    by_cases hk : ka = k
    · simp [alLookup, hk] at hl
    · simp only [alLookup, if_neg hk] at hl
      simp only [List.map_cons, List.mem_cons] at hmem
      rcases hmem with h | h
      · exact hk h.symm
      · exact ih k hl h

/-- Lookup in a `(date, day)` pairing of a date-Nodup bucket list finds
the bucket itself ... -/
theorem alLookup_pairmap_mem :
    ∀ (l : List Day) (d : Day), d ∈ l → (l.map Day.date).Nodup →
      alLookup (l.map (fun d => (d.date, d))) d.date = some d := by
  intro l
  induction l with
  | nil => intro d h; exact absurd h (by simp)
  | cons e t ih =>
    intro d hd hnd
    simp only [List.map_cons, List.nodup_cons] at hnd
    simp only [List.map_cons]
    by_cases hk : e.date = d.date
    · rw [alLookup, if_pos hk]
      rcases List.mem_cons.mp hd with h | h
      · rw [h]
      · exact absurd (hk ▸ List.mem_map_of_mem Day.date h) hnd.1
    · rw [alLookup, if_neg hk]
      rcases List.mem_cons.mp hd with h | h
      · exact absurd (congrArg Day.date h.symm) hk
      · exact ih d h hnd.2

/-- ... and misses any absent date. -/
theorem alLookup_pairmap_none :
    ∀ (l : List Day) (k : String), k ∉ l.map Day.date →
      alLookup (l.map (fun d => (d.date, d))) k = none := by
  intro l
  induction l with
  | nil => intro k _; rfl
  | cons e t ih =>
    intro k hk
    simp only [List.map_cons, List.mem_cons] at hk
    push_neg at hk
    simp only [List.map_cons]
    rw [alLookup, if_neg (fun h => hk.1 h.symm)]
    exact ih k hk.2

/-- The guard of the existing pass holds exactly for parseable, not-past
dates; under it `seedStep` is a fresh append. -/
theorem seedStep_keep :
    ∀ (today : PDate) (mp : List (String × Day)) (day : Day),
      keepDay today day = true → seedStep today mp day = alInsert mp day.date day := by
  intro today mp day h
  unfold seedStep
  unfold keepDay at h
  cases hp : parseDate day.date with
  | none => rw [hp] at h; exact absurd h (by simp)
  | some d =>
    rw [hp] at h
    dsimp only
    rw [if_pos h]

/-- Characterisation of the existing pass on a date-Nodup timeline over a
map that contains none of its dates. -/
theorem seedMap_characterisation :
    ∀ (today : PDate) (tl : List Day) (mp : List (String × Day)),
      (∀ d ∈ tl, alLookup mp d.date = none) → (tl.map Day.date).Nodup →
      tl.foldl (seedStep today) mp
        = mp ++ (tl.filter (keepDay today)).map (fun d => (d.date, d)) := by
  intro today tl
  induction tl with
  | nil => intro mp _ _; simp
  | cons d t ih =>
    intro mp hfresh hnd
    simp only [List.map_cons, List.nodup_cons] at hnd
    rw [List.filter_cons]
    by_cases hk : keepDay today d = true
    · rw [if_pos hk]
      simp only [List.foldl_cons]
      rw [seedStep_keep today mp d hk,
        alInsert_fresh mp d.date d (hfresh d (List.mem_cons_self d t))]
      rw [ih (mp ++ [(d.date, d)]) ?_ hnd.2]
      · simp
      · intro e he
        rw [alLookup_append, hfresh e (List.mem_cons_of_mem d he)]
        dsimp only
        rw [alLookup, if_neg]
        · rfl
        · intro hc
          exact hnd.1 (hc ▸ List.mem_map_of_mem Day.date he)
    · rw [if_neg hk]
      simp only [List.foldl_cons]
      rw [seedStep_skip today mp d (by simpa using hk)]
      exact ih mp (fun e he => hfresh e (List.mem_cons_of_mem d he)) hnd.2

/-- Characterisation of the new pass when every kept date maps to its own
(identical) bucket and every other date is absent: kept buckets are
re-merged into themselves (a no-op), the rest are appended verbatim. -/
theorem addNew_characterisation :
    ∀ (today : PDate) (t : List Day) (mp : List (String × Day)),
      (∀ d ∈ t, keepDay today d = true → alLookup mp d.date = some d) →
      (∀ d ∈ t, keepDay today d = false → alLookup mp d.date = none) →
      (t.map Day.date).Nodup →
      (mp.map Prod.fst).Nodup →
      t.foldl addStep mp
        = mp ++ (t.filter (fun d => !(keepDay today d))).map (fun d => (d.date, d)) := by
  intro today t
  induction t with
  | nil => intro mp _ _ _ _; simp
  | cons d t ih =>
    intro mp hkeep hnkeep hnd huniq
    simp only [List.map_cons, List.nodup_cons] at hnd
    rw [List.filter_cons]
    by_cases hk : keepDay today d = true
    · rw [if_neg (by simp [hk])]
      simp only [List.foldl_cons]
      have hstep : addStep mp d = mp := by
        unfold addStep
        simp only [hkeep d (List.mem_cons_self d t) hk]
        rw [mergeDay_self]
        exact alInsert_self_eq mp d.date d (hkeep d (List.mem_cons_self d t) hk) huniq
      rw [hstep]
      exact ih mp (fun e he hke => hkeep e (List.mem_cons_of_mem d he) hke)
        (fun e he hke => hnkeep e (List.mem_cons_of_mem d he) hke) hnd.2 huniq
    · rw [if_pos (by simp [hk])]
      simp only [List.foldl_cons]
      have hlook : alLookup mp d.date = none :=
        hnkeep d (List.mem_cons_self d t) (by simpa using hk)
      have hstep : addStep mp d = mp ++ [(d.date, d)] := by
        unfold addStep
        rw [hlook]
      rw [hstep]
      rw [ih (mp ++ [(d.date, d)]) ?_ ?_ hnd.2 ?_]
      · simp
      · intro e he hke
        rw [alLookup_append, hkeep e (List.mem_cons_of_mem d he) hke]
      · intro e he hke
        rw [alLookup_append, hnkeep e (List.mem_cons_of_mem d he) hke]
        dsimp only
        rw [alLookup, if_neg]
        · rfl
        · intro hc
          exact hnd.1 (hc ▸ List.mem_map_of_mem Day.date he)
      · simp only [List.map_append, List.map_cons, List.map_nil]
        rw [List.nodup_append]
        refine ⟨huniq, by simp, ?_⟩
        intro x hx hxx
        simp only [List.mem_singleton] at hxx
        subst hxx
        exact alLookup_none_not_key mp d.date hlook hx

/-- On a date-Nodup timeline, the self-merged timeline map is exactly the
kept buckets followed by the others, each bucket unchanged. -/
theorem selfmerge_timeline_map :
    ∀ (today : PDate) (tl : List Day), (tl.map Day.date).Nodup →
      addNew (seedMap today tl) tl
        = (tl.filter (keepDay today)).map (fun d => (d.date, d))
          ++ (tl.filter (fun d => !(keepDay today d))).map (fun d => (d.date, d)) := by
  intro today tl hnd
  have hseed : seedMap today tl = (tl.filter (keepDay today)).map (fun d => (d.date, d)) := by
    unfold seedMap
    rw [seedMap_characterisation today tl [] (fun d _ => rfl) hnd]
    simp
  have hfnd : ((tl.filter (keepDay today)).map Day.date).Nodup :=
    hnd.sublist ((List.filter_sublist tl).map Day.date)
  have huniq : (((tl.filter (keepDay today)).map (fun d => (d.date, d))).map Prod.fst).Nodup := by
    rw [List.map_map]
    exact hfnd
  unfold addNew
  rw [hseed]
  apply addNew_characterisation today tl _ ?_ ?_ hnd huniq
  · intro d hd hkd
    exact alLookup_pairmap_mem (tl.filter (keepDay today)) d
      (List.mem_filter.mpr ⟨hd, hkd⟩) hfnd
  · intro d hd hkd
    apply alLookup_pairmap_none
    intro hc
    rw [List.mem_map] at hc
    obtain ⟨e, he, hedate⟩ := hc
    rw [List.mem_filter] at he
    have : e = d := List.inj_on_of_nodup_map hnd he.1 hd hedate
    rw [this] at he
    rw [he.2] at hkd
    exact absurd hkd (by simp)

theorem perm_insertByDate :
    ∀ (l : List Day) (d : Day), (insertByDate d l).Perm (d :: l) := by
  intro l
  induction l with
  | nil => intro d; exact List.Perm.refl _
  | cons e t ih =>
    intro d
    unfold insertByDate
    by_cases hlt : strLt d.date e.date = true
    · rw [if_pos hlt]
    · rw [if_neg hlt]
      exact ((ih d).cons e).trans (List.Perm.swap d e t)

theorem perm_sortByDate : ∀ (l : List Day), (sortByDate l).Perm l := by
  intro l
  induction l with
  | nil => exact List.Perm.refl _
  | cons d t ih =>
    unfold sortByDate
    exact (perm_insertByDate (sortByDate t) d).trans (ih.cons d)

/-! ### Section-merge (`addItems`) lemmas -/

theorem addItems_mem_acc :
    ∀ (l : List Item) (seen : List String) (acc : List Item) (a : Item),
      a ∈ acc → a ∈ (addItems seen acc l).2 := by
  intro l
  induction l with
  | nil => intro seen acc a h; exact h
  | cons i t ih =>
    intro seen acc a h
    unfold addItems
    dsimp only
    by_cases hc : secKey i ≠ "" ∧ strMem (secKey i) seen = false
    · rw [if_pos hc]
      exact ih _ _ a (List.mem_append_left _ h)
    · rw [if_neg hc]
      exact ih _ _ a h

theorem addItems_mem_src :
    ∀ (l : List Item) (seen : List String) (acc : List Item) (a : Item),
      a ∈ (addItems seen acc l).2 → a ∈ acc ∨ a ∈ l := by
  intro l
  induction l with
  | nil => intro seen acc a h; exact Or.inl h
  | cons i t ih =>
    intro seen acc a h
    unfold addItems at h
    dsimp only at h
    by_cases hc : secKey i ≠ "" ∧ strMem (secKey i) seen = false
    · rw [if_pos hc] at h
      rcases ih _ _ a h with h2 | h2
      · rcases List.mem_append.mp h2 with h3 | h3
        · exact Or.inl h3
        · simp only [List.mem_singleton] at h3
          exact Or.inr (h3 ▸ List.mem_cons_self i t)
      · exact Or.inr (List.mem_cons_of_mem i h2)
    · rw [if_neg hc] at h
      rcases ih _ _ a h with h2 | h2
      · exact Or.inl h2
      · exact Or.inr (List.mem_cons_of_mem i h2)

theorem addItems_absorb :
    ∀ (l : List Item) (seen : List String) (acc : List Item),
      (∀ i ∈ l, secKey i = "" ∨ strMem (secKey i) seen = true) →
      addItems seen acc l = (seen, acc) := by
  intro l
  induction l with
  | nil => intro seen acc _; rfl
  | cons i t ih =>
    intro seen acc h
    unfold addItems
    dsimp only
    rw [if_neg ?_]
    · exact ih seen acc (fun e he => h e (List.mem_cons_of_mem i he))
    · intro hc
      rcases h i (List.mem_cons_self i t) with h2 | h2
      · exact hc.1 h2
      · rw [hc.2] at h2
        exact absurd h2 (by simp)

theorem addItems_seen_mono :
    ∀ (l : List Item) (seen : List String) (acc : List Item) (s : String),
      strMem s seen = true → strMem s (addItems seen acc l).1 = true := by
  intro l
  induction l with
  | nil => intro seen acc s h; exact h
  | cons i t ih =>
    intro seen acc s h
    unfold addItems
    dsimp only
    by_cases hc : secKey i ≠ "" ∧ strMem (secKey i) seen = false
    · rw [if_pos hc]
      apply ih
      rw [strMem_iff] at h ⊢
      exact List.mem_cons_of_mem _ h
    · rw [if_neg hc]
      exact ih _ _ s h

theorem addItems_keys_covered :
    ∀ (l : List Item) (seen : List String) (acc : List Item) (i : Item),
      i ∈ l → secKey i ≠ "" → strMem (secKey i) (addItems seen acc l).1 = true := by
  intro l
  induction l with
  | nil => intro seen acc i h; exact absurd h (by simp)
  | cons j t ih =>
    intro seen acc i hi hkey
    unfold addItems
    dsimp only
    rcases List.mem_cons.mp hi with h | h
    · subst h
      by_cases hc : secKey i ≠ "" ∧ strMem (secKey i) seen = false
      · rw [if_pos hc]
        apply addItems_seen_mono
        unfold strMem
        rw [if_pos rfl]
      · rw [if_neg hc]
        rcases Decidable.not_and_iff_or_not.mp hc with h2 | h2
        · exact absurd hkey (by simpa using h2)
        · apply addItems_seen_mono
          simpa using h2
    · by_cases hc : secKey j ≠ "" ∧ strMem (secKey j) seen = false
      · rw [if_pos hc]
        exact ih _ _ i h hkey
      · rw [if_neg hc]
        exact ih _ _ i h hkey

theorem addItems_seen_source :
    ∀ (l : List Item) (seen : List String) (acc : List Item) (s : String),
      strMem s (addItems seen acc l).1 = true →
      strMem s seen = true ∨ ∃ j, j ∈ (addItems seen acc l).2 ∧ secKey j = s := by
  intro l
  induction l with
  | nil => intro seen acc s h; exact Or.inl h
  | cons i t ih =>
    intro seen acc s h
    unfold addItems at h ⊢
    dsimp only at h ⊢
    by_cases hc : secKey i ≠ "" ∧ strMem (secKey i) seen = false
    · rw [if_pos hc] at h ⊢
      rcases ih _ _ s h with h2 | h2
      · rw [strMem_iff] at h2
        rcases List.mem_cons.mp h2 with h3 | h3
        · refine Or.inr ⟨i, ?_, h3.symm⟩
          exact addItems_mem_acc t _ _ i (List.mem_append_right _ (List.mem_singleton.mpr rfl))
        · exact Or.inl (by rw [strMem_iff]; exact h3)
      · exact Or.inr h2
    · rw [if_neg hc] at h ⊢
      exact ih _ _ s h

theorem addItems_result_keys_seen :
    ∀ (l : List Item) (seen : List String) (acc : List Item),
      (∀ a ∈ acc, strMem (secKey a) seen = true) →
      ∀ a ∈ (addItems seen acc l).2, strMem (secKey a) (addItems seen acc l).1 = true := by
  intro l
  induction l with
  | nil => intro seen acc hacc a ha; exact hacc a ha
  | cons i t ih =>
    intro seen acc hacc a ha
    unfold addItems at ha ⊢
    dsimp only at ha ⊢
    by_cases hc : secKey i ≠ "" ∧ strMem (secKey i) seen = false
    · rw [if_pos hc] at ha ⊢
      refine ih _ _ ?_ a ha
      intro b hb
      rcases List.mem_append.mp hb with h2 | h2
      · rw [strMem_iff]
        exact List.mem_cons_of_mem _ (strMem_iff _ _ |>.mp (hacc b h2))
      · simp only [List.mem_singleton] at h2
        subst h2
        unfold strMem
        rw [if_pos rfl]
    · rw [if_neg hc] at ha ⊢
      exact ih _ _ hacc a ha

theorem addItems_keys_nodup :
    ∀ (l : List Item) (seen : List String) (acc : List Item),
      ((acc.map secKey).Nodup) →
      (∀ a ∈ acc, strMem (secKey a) seen = true) →
      (((addItems seen acc l).2).map secKey).Nodup := by
  intro l
  induction l with
  | nil => intro seen acc hnd _; exact hnd
  | cons i t ih =>
    intro seen acc hnd hacc
    unfold addItems
    dsimp only
    by_cases hc : secKey i ≠ "" ∧ strMem (secKey i) seen = false
    · rw [if_pos hc]
      refine ih _ _ ?_ ?_
      · simp only [List.map_append, List.map_cons, List.map_nil]
        rw [List.nodup_append]
        refine ⟨hnd, by simp, ?_⟩
        intro x hx hxx
        simp only [List.mem_singleton] at hxx
        subst hxx
        rw [List.mem_map] at hx
        obtain ⟨b, hb, hkey⟩ := hx
        have := hacc b hb
        rw [hkey] at this
        rw [this] at hc
        exact absurd hc.2 (by simp)
      · intro b hb
        rcases List.mem_append.mp hb with h2 | h2
        · rw [strMem_iff]
          exact List.mem_cons_of_mem _ (strMem_iff _ _ |>.mp (hacc b h2))
        · simp only [List.mem_singleton] at h2
          subst h2
          unfold strMem
          rw [if_pos rfl]
    · rw [if_neg hc]
      exact ih _ _ hnd hacc

theorem secLookup_not_key :
    ∀ (s : List (String × List Item)) (k : String),
      k ∉ s.map Prod.fst → secLookup s k = [] := by
  intro s
  induction s with
  | nil => intro k _; rfl
  | cons e t ih =>
    intro k hk
    obtain ⟨ka, va⟩ := e
    simp only [List.map_cons, List.mem_cons] at hk
    push_neg at hk
    unfold secLookup
    rw [if_neg (fun h => hk.1 h.symm)]
    exact ih k hk.2

theorem secLookup_keysMap :
    ∀ (keys : List String) (f : String → List Item) (k : String), k ∈ keys →
      secLookup (keys.map (fun k2 => (k2, f k2))) k = f k := by
  intro keys
  induction keys with
  | nil => intro f k h; exact absurd h (by simp)
  | cons k0 t ih =>
    intro f k hk
    simp only [List.map_cons]
    unfold secLookup
    by_cases h0 : k0 = k
    · rw [if_pos h0, h0]
    · rw [if_neg h0]
      rcases List.mem_cons.mp hk with h | h
      · exact absurd h.symm h0
      · exact ih f k h

theorem secLookup_keysMap_not :
    ∀ (keys : List String) (f : String → List Item) (k : String), k ∉ keys →
      secLookup (keys.map (fun k2 => (k2, f k2))) k = [] := by
  intro keys f k hk
  apply secLookup_not_key
  intro hc
  rw [List.map_map] at hc
  apply hk
  rw [List.mem_map] at hc
  obtain ⟨x, hx, hxk⟩ := hc
  have : x = k := hxk
  exact this ▸ hx

theorem mem_dedupKeysGo :
    ∀ (l seen : List String) (k : String),
      k ∈ dedupKeysGo seen l ↔ k ∈ l ∧ k ∉ seen := by
  intro l
  induction l with
  | nil => intro seen k; simp [dedupKeysGo]
  | cons x t ih =>
    intro seen k
    unfold dedupKeysGo
    by_cases hx : strMem x seen = true
    · rw [if_pos hx]
      rw [ih seen k]
      rw [strMem_iff] at hx
      constructor
      · intro h
        exact ⟨List.mem_cons_of_mem x h.1, h.2⟩
      · intro h
        rcases List.mem_cons.mp h.1 with h2 | h2
        · exact absurd (h2 ▸ hx) h.2
        · exact ⟨h2, h.2⟩
    · rw [if_neg hx]
      simp only [List.mem_cons, ih (x :: seen) k]
      rw [Bool.not_eq_true] at hx
      constructor
      · intro h
        rcases h with h | h
        · subst h
          refine ⟨Or.inl rfl, ?_⟩
          intro hc
          rw [((strMem_iff k seen).mpr hc : strMem k seen = true)] at hx
          exact absurd hx (by simp)
        · refine ⟨Or.inr h.1, ?_⟩
          intro hc
          exact h.2 (Or.inr hc)
      · intro h
        rcases h.1 with h2 | h2
        · exact Or.inl h2
        · by_cases hkx : k = x
          · exact Or.inl hkx
          · refine Or.inr ⟨h2, ?_⟩
            intro hc
            rcases hc with h3 | h3
            · exact hkx h3
            · exact h.2 h3

theorem mem_dedupKeys : ∀ (l : List String) (k : String), k ∈ dedupKeys l ↔ k ∈ l := by
  intro l k
  unfold dedupKeys
  rw [mem_dedupKeysGo]
  simp

/-- Lookup in the merged sections of a self-merge. -/
theorem secLookup_mergeSections_self :
    ∀ (s : List (String × List Item)) (k : String),
      secLookup (mergeSections s s) k
        = if k ∈ s.map Prod.fst then
            mergeSectionLists (secLookup s k) (secLookup s k)
          else [] := by
  intro s k
  unfold mergeSections
  by_cases hk : k ∈ s.map Prod.fst
  · rw [if_pos hk]
    apply secLookup_keysMap
    rw [mem_dedupKeys]
    exact List.mem_append_left _ hk
  · rw [if_neg hk]
    apply secLookup_keysMap_not
    rw [mem_dedupKeys]
    intro hc
    rcases List.mem_append.mp hc with h | h
    · exact hk h
    · exact hk h

/-- **C2 counterexample.**  `merge(D, D)` is *not* `D` up to timeline
pruning and ordering: a section item without a `"title"` key (the normal
shape of an `alerts` entry) is dropped by the section dedup pass, so the
self-merge loses it outright. -/
theorem c2_counterexample :
    (⟨none, "rain"⟩ : Item) ∈ secLookup
        ((⟨some [], some [("alerts", [⟨none, "rain"⟩])], some []⟩ : Doc).sections.getD [])
        "alerts"
    ∧ (merge_data ⟨2024, 1, 1⟩
         (some ⟨some [], some [("alerts", [⟨none, "rain"⟩])], some []⟩)
         ⟨some [], some [("alerts", [⟨none, "rain"⟩])], some []⟩).sections
        = some [("alerts", [])] := by
  refine ⟨by decide, by decide⟩

/-- **C2 (amended).**  For a document whose timeline has pairwise-distinct
dates, `merge(D, D)`: (timeline) keeps every bucket exactly once and
unchanged — a permutation of `D`'s timeline; note past buckets are *not*
pruned here, because the incoming copy re-adds them; (weekly plan)
preserved; (sections, per key) no item is invented, every item with a
non-empty trimmed title keeps a representative of its title, and the
result holds no two items with the same trimmed lower-cased title — but
items with an empty/whitespace title (e.g. alerts) are dropped, and for
duplicate titles only the first occurrence survives. -/
theorem c2_self_merge_amended :
    ∀ (today : PDate) (D : Doc) (tl : List Day),
      D.timeline = some tl →
      (tl.map Day.date).Nodup →
      (∃ tl2, (merge_data today (some D) D).timeline = some tl2 ∧ tl2.Perm tl)
      ∧ (merge_data today (some D) D).weekly_plan = some (D.weekly_plan.getD [])
      ∧ (∀ (k : String) (i : Item),
           i ∈ secLookup ((merge_data today (some D) D).sections.getD []) k →
           i ∈ secLookup (D.sections.getD []) k)
      ∧ (∀ (k : String) (i : Item),
           i ∈ secLookup (D.sections.getD []) k → secKey i ≠ "" →
           ∃ j, j ∈ secLookup ((merge_data today (some D) D).sections.getD []) k
             ∧ secKey j = secKey i)
      ∧ (∀ k : String,
           ((secLookup ((merge_data today (some D) D).sections.getD []) k).map secKey).Nodup) := by
  intro today D tl hD hnd
  have htr : docTruthy D = true := by simp [docTruthy, hD]
  have hM : merge_data today (some D) D
      = ⟨some (sortByDate ((addNew (seedMap today tl) tl).map Prod.snd)),
         some (mergeSections (D.sections.getD []) (D.sections.getD [])),
         some (D.weekly_plan.getD (D.weekly_plan.getD []))⟩ := by
    unfold merge_data
    dsimp only
    simp only [htr, Bool.not_true, Bool.false_eq_true, if_false, hD]
  have hpairmap : ∀ (l : List Day),
      (l.map (fun d => (d.date, d))).map Prod.snd = l := by
    intro l
    rw [List.map_map]
    calc l.map (Prod.snd ∘ fun d => (d.date, d))
        = l.map id := List.map_congr_left (fun a _ => rfl)
      _ = l := List.map_id l
  refine ⟨?_, ?_, ?_, ?_, ?_⟩
  · rw [hM]
    refine ⟨_, rfl, ?_⟩
    rw [selfmerge_timeline_map today tl hnd]
    rw [List.map_append, hpairmap, hpairmap]
    exact (perm_sortByDate _).trans (List.filter_append_perm _ tl)
  · rw [hM]
    cases D.weekly_plan with
    | none => rfl
    | some w => rfl
  · intro k i hi
    rw [hM] at hi
    simp only [Option.getD_some] at hi
    rw [secLookup_mergeSections_self] at hi
    by_cases hk : k ∈ (D.sections.getD []).map Prod.fst
    · rw [if_pos hk] at hi
      unfold mergeSectionLists at hi
      rcases addItems_mem_src _ _ _ i hi with h2 | h2
      · rcases addItems_mem_src _ _ _ i h2 with h3 | h3
        · exact absurd h3 (by simp)
        · exact h3
      · exact h2
    · rw [if_neg hk] at hi
      exact absurd hi (by simp)
  · intro k i hi hkey
    have hk : k ∈ (D.sections.getD []).map Prod.fst := by
      by_contra hc
      rw [secLookup_not_key _ _ hc] at hi
      exact absurd hi (by simp)
    have hcov := addItems_keys_covered (secLookup (D.sections.getD []) k) [] [] i hi hkey
    rcases addItems_seen_source _ _ _ _ hcov with h2 | h2
    · exact absurd h2 (by simp [strMem])
    · obtain ⟨j, hj, hjkey⟩ := h2
      refine ⟨j, ?_, hjkey⟩
      rw [hM]
      simp only [Option.getD_some]
      rw [secLookup_mergeSections_self, if_pos hk]
      unfold mergeSectionLists
      exact addItems_mem_acc _ _ _ j hj
  · intro k
    rw [hM]
    simp only [Option.getD_some]
    rw [secLookup_mergeSections_self]
    by_cases hk : k ∈ (D.sections.getD []).map Prod.fst
    · rw [if_pos hk]
      unfold mergeSectionLists
      apply addItems_keys_nodup
      · exact addItems_keys_nodup _ [] [] (by simp) (by intro a ha; exact absurd ha (by simp))
      · exact addItems_result_keys_seen _ [] [] (by intro a ha; exact absurd ha (by simp))
    · rw [if_neg hk]
      simp

/-- **C2 witness.** -/
theorem c2_self_merge_amended_witness :
    ∃ tl2,
      (merge_data ⟨2024, 1, 2⟩
          (some ⟨some [⟨"2024-01-01", "P", [⟨some "A", "a"⟩]⟩,
                       ⟨"2024-01-03", "F", [⟨some "B", "b"⟩]⟩],
                 some [("movies", [⟨some "M", "m"⟩])], some [("monday", "rest")]⟩)
          ⟨some [⟨"2024-01-01", "P", [⟨some "A", "a"⟩]⟩,
                 ⟨"2024-01-03", "F", [⟨some "B", "b"⟩]⟩],
           some [("movies", [⟨some "M", "m"⟩])], some [("monday", "rest")]⟩).timeline
        = some tl2
      ∧ tl2.Perm [⟨"2024-01-01", "P", [⟨some "A", "a"⟩]⟩,
                  ⟨"2024-01-03", "F", [⟨some "B", "b"⟩]⟩] :=
  (c2_self_merge_amended ⟨2024, 1, 2⟩
    ⟨some [⟨"2024-01-01", "P", [⟨some "A", "a"⟩]⟩,
           ⟨"2024-01-03", "F", [⟨some "B", "b"⟩]⟩],
     some [("movies", [⟨some "M", "m"⟩])], some [("monday", "rest")]⟩
    [⟨"2024-01-01", "P", [⟨some "A", "a"⟩]⟩, ⟨"2024-01-03", "F", [⟨some "B", "b"⟩]⟩]
    rfl (by decide)).1
